import Mathlib

/-
Verification of the physics kernel of src/electro.js.

The kernel is embedded shallowly over the real numbers: JavaScript numbers
become elements of the real field, objects become structures, and the
in-place mutation of the charge array becomes explicit list transformation.
Every definition below mirrors one function or loop of the source file
(the second, magnet-aware version of the file, lines 271-519); line
references point into src/electro.js.
-/

noncomputable section

open Classical

namespace Electro

/-- A charge particle record: position, velocity, acceleration, charge,
mass and the pinned flag (data model of the source). -/
structure Charge where
  x : ℝ
  y : ℝ
  vx : ℝ
  vy : ℝ
  ax : ℝ
  ay : ℝ
  q : ℝ
  m : ℝ
  pinned : Bool

instance : Inhabited Charge := ⟨⟨0, 0, 0, 0, 0, 0, 0, 0, false⟩⟩

theorem Charge.ext (a b : Charge) (hx : a.x = b.x) (hy : a.y = b.y)
    (hvx : a.vx = b.vx) (hvy : a.vy = b.vy) (hax : a.ax = b.ax) (hay : a.ay = b.ay)
    (hq : a.q = b.q) (hm : a.m = b.m) (hp : a.pinned = b.pinned) : a = b := by
  cases a; cases b; simp_all

/-- A bar-magnet dipole record (data model of the source). -/
structure Magnet where
  x : ℝ
  y : ℝ
  angle : ℝ
  strength : ℝ
  pinned : Bool

/-- The per-step options record, with all defaults already resolved:
k, softening, damping, maxAccel. -/
structure SimOptions where
  k : ℝ
  softening : ℝ
  damping : ℝ
  maxAccel : ℝ

/-- Loop body of electricFieldAt for one charge (src/electro.js lines 279-287). -/
def fieldContrib (k eps x y : ℝ) (c : Charge) : ℝ × ℝ :=
  let dx := x - c.x
  let dy := y - c.y
  let r2 := dx * dx + dy * dy + eps * eps
  let invR3 := 1 / (Real.sqrt r2 * r2)
  let factor := k * c.q * invR3
  (factor * dx, factor * dy)

/-- electricFieldAt (src/electro.js lines 274-289). -/
def electricFieldAt (x y : ℝ) (charges : List Charge) (options : SimOptions) : ℝ × ℝ :=
  charges.foldl
    (fun E c => (E.1 + (fieldContrib options.k options.softening x y c).1,
                 E.2 + (fieldContrib options.k options.softening x y c).2)) (0, 0)

/-- magneticFieldAt (src/electro.js lines 291-305). -/
def magneticFieldAt (x y : ℝ) (magnet : Magnet) (options : SimOptions) : ℝ × ℝ :=
  let soft := options.softening
  let dx := x - magnet.x
  let dy := y - magnet.y
  let r2 := dx * dx + dy * dy + soft * soft
  let r := Real.sqrt r2
  let mx := magnet.strength * Real.cos magnet.angle
  let my := magnet.strength * Real.sin magnet.angle
  let dot := mx * dx + my * dy
  let r5 := r2 * r2 * r
  let r3 := r2 * r
  (3 * dot * dx / r5 - mx / r3, 3 * dot * dy / r5 - my / r3)

/-- totalMagneticFieldAt (src/electro.js lines 307-315). -/
def totalMagneticFieldAt (x y : ℝ) (magnets : List Magnet) (options : SimOptions) : ℝ × ℝ :=
  magnets.foldl
    (fun B mag => (B.1 + (magneticFieldAt x y mag options).1,
                   B.2 + (magneticFieldAt x y mag options).2)) (0, 0)

/-- Coulomb force on the first charge of a pair due to the second
(src/electro.js lines 331-338). -/
def pairForce (k soft : ℝ) (a b : Charge) : ℝ × ℝ :=
  let dx := a.x - b.x
  let dy := a.y - b.y
  let r2 := dx * dx + dy * dy + soft * soft
  let r := Real.sqrt r2
  let invR3 := 1 / (r * r2)
  let force := k * a.q * b.q * invR3
  (force * dx, force * dy)

/-- Pre-clamp acceleration increment on the first charge of a pair
(src/electro.js lines 341-342). -/
def preClampIncA (k soft : ℝ) (a b : Charge) : ℝ × ℝ :=
  ((pairForce k soft a b).1 / a.m, (pairForce k soft a b).2 / a.m)

/-- Pre-clamp acceleration increment on the second charge of a pair
(src/electro.js lines 350-351). -/
def preClampIncB (k soft : ℝ) (a b : Charge) : ℝ × ℝ :=
  (-(pairForce k soft a b).1 / b.m, -(pairForce k soft a b).2 / b.m)

/-- Magnitude clamp applied to one pairwise increment
(src/electro.js lines 343-348 and 352-357). -/
def clampInc (maxAccel : ℝ) (v : ℝ × ℝ) : ℝ × ℝ :=
  let mag := Real.sqrt (v.1 * v.1 + v.2 * v.2)
  if mag > maxAccel then (maxAccel / mag * v.1, maxAccel / mag * v.2) else v

/-- One iteration of the double loop of computeAccelerations: clamp and
accumulate the increments of the pair p onto the two charges
(src/electro.js lines 328-363). -/
def applyPair (k soft maxAccel : ℝ) (cs : List Charge) (p : ℕ × ℕ) : List Charge :=
  let a := cs.getD p.1 default
  let b := cs.getD p.2 default
  let aInc := clampInc maxAccel (preClampIncA k soft a b)
  let bInc := clampInc maxAccel (preClampIncB k soft a b)
  (cs.set p.1 { a with ax := a.ax + aInc.1, ay := a.ay + aInc.2 }).set p.2
    { b with ax := b.ax + bInc.1, ay := b.ay + bInc.2 }

/-- The index pairs (i, j) with i < j < N visited by the nested loops,
in iteration order. -/
def pairIndices (N : ℕ) : List (ℕ × ℕ) :=
  ((List.range N).map fun i => (List.range' (i + 1) (N - (i + 1))).map fun j => (i, j)).foldr
    (fun row acc => row ++ acc) []

/-- Approximate magnetic Lorentz acceleration added to a charge
(src/electro.js lines 367-381). -/
def lorentzAccel (magnets : List Magnet) (options : SimOptions) (c : Charge) : ℝ × ℝ :=
  let B := totalMagneticFieldAt c.x c.y magnets options
  let Bmag := Real.sqrt (B.1 * B.1 + B.2 * B.2)
  let vmag := Real.sqrt (c.vx * c.vx + c.vy * c.vy)
  if vmag > 0 ∧ Bmag > 0 then
    let px := -c.vy
    let py := c.vx
    let pmag := Real.sqrt (px * px + py * py)
    let fx := c.q * (px / pmag) * Bmag * vmag
    let fy := c.q * (py / pmag) * Bmag * vmag
    (fx / c.m, fy / c.m)
  else (0, 0)

/-- Zero the acceleration of one charge (src/electro.js lines 323-326). -/
def zeroAccel (c : Charge) : Charge := { c with ax := 0, ay := 0 }

/-- Add the magnetic coupling of one charge onto its acceleration
(src/electro.js lines 378-379). -/
def addLorentz (magnets : List Magnet) (options : SimOptions) (c : Charge) : Charge :=
  { c with ax := c.ax + (lorentzAccel magnets options c).1,
           ay := c.ay + (lorentzAccel magnets options c).2 }

/-- computeAccelerations (src/electro.js lines 317-382): zero all
accelerations, run the pairwise double loop, then add the magnetic
coupling to every charge. -/
def computeAccelerations (charges : List Charge) (magnets : List Magnet)
    (options : SimOptions) : List Charge :=
  ((pairIndices charges.length).foldl
    (applyPair options.k options.softening options.maxAccel)
    (charges.map zeroAccel)).map (addLorentz magnets options)

/-- Semi-implicit Euler update of one charge (src/electro.js lines 391-399). -/
def integrateEuler (dt damping : ℝ) (p : Charge) : Charge :=
  if p.pinned then p
  else
    let vx := (p.vx + p.ax * dt) * damping
    let vy := (p.vy + p.ay * dt) * damping
    { p with vx := vx, vy := vy, x := p.x + vx * dt, y := p.y + vy * dt }

/-- stepPhysics (src/electro.js lines 384-400). -/
def stepPhysics (charges : List Charge) (magnets : List Magnet) (dt : ℝ)
    (options : SimOptions) : List Charge :=
  (computeAccelerations charges magnets options).map (integrateEuler dt options.damping)

/-- Snapshot of position and velocity, element of state0
(src/electro.js lines 408-410). -/
structure ChargeState where
  x : ℝ
  y : ℝ
  vx : ℝ
  vy : ℝ

instance : Inhabited ChargeState := ⟨⟨0, 0, 0, 0⟩⟩

/-- One staged derivative record: x and y hold dx/dt = v, vx and vy hold
dv/dt = a (src/electro.js lines 414-417). -/
structure ChargeDeriv where
  x : ℝ
  y : ℝ
  vx : ℝ
  vy : ℝ

instance : Inhabited ChargeDeriv := ⟨⟨0, 0, 0, 0⟩⟩

def snapState (c : Charge) : ChargeState := ⟨c.x, c.y, c.vx, c.vy⟩

def derivOf (c : Charge) : ChargeDeriv := ⟨c.vx, c.vy, c.ax, c.ay⟩

/-- Overwrite one non-pinned charge with a staged state; pinned charges are
skipped (src/electro.js lines 420-426, 434-440, 448-454). -/
def stageUpdate (h : ℝ) (s : ChargeState) (kd : ChargeDeriv) (c : Charge) : Charge :=
  if c.pinned then c
  else { c with x := s.x + h * kd.x, y := s.y + h * kd.y,
                vx := s.vx + h * kd.vx, vy := s.vy + h * kd.vy }

def stageUpdateAll (h : ℝ) (s0 : List ChargeState) (ks : List ChargeDeriv)
    (cs : List Charge) : List Charge :=
  List.zipWith (fun p c => stageUpdate h p.1 p.2 c) (s0.zip ks) cs

def rk4State0 (charges : List Charge) : List ChargeState := charges.map snapState

def rk4Cs1 (charges : List Charge) (magnets : List Magnet)
    (options : SimOptions) : List Charge :=
  computeAccelerations charges magnets options

def rk4K1 (charges : List Charge) (magnets : List Magnet)
    (options : SimOptions) : List ChargeDeriv :=
  (rk4Cs1 charges magnets options).map derivOf

def rk4Stage2In (charges : List Charge) (magnets : List Magnet) (dt : ℝ)
    (options : SimOptions) : List Charge :=
  stageUpdateAll (0.5 * dt) (rk4State0 charges) (rk4K1 charges magnets options)
    (rk4Cs1 charges magnets options)

def rk4Cs2 (charges : List Charge) (magnets : List Magnet) (dt : ℝ)
    (options : SimOptions) : List Charge :=
  computeAccelerations (rk4Stage2In charges magnets dt options) magnets options

def rk4K2 (charges : List Charge) (magnets : List Magnet) (dt : ℝ)
    (options : SimOptions) : List ChargeDeriv :=
  (rk4Cs2 charges magnets dt options).map derivOf

def rk4Stage3In (charges : List Charge) (magnets : List Magnet) (dt : ℝ)
    (options : SimOptions) : List Charge :=
  stageUpdateAll (0.5 * dt) (rk4State0 charges) (rk4K2 charges magnets dt options)
    (rk4Cs2 charges magnets dt options)

def rk4Cs3 (charges : List Charge) (magnets : List Magnet) (dt : ℝ)
    (options : SimOptions) : List Charge :=
  computeAccelerations (rk4Stage3In charges magnets dt options) magnets options

def rk4K3 (charges : List Charge) (magnets : List Magnet) (dt : ℝ)
    (options : SimOptions) : List ChargeDeriv :=
  (rk4Cs3 charges magnets dt options).map derivOf

def rk4Stage4In (charges : List Charge) (magnets : List Magnet) (dt : ℝ)
    (options : SimOptions) : List Charge :=
  stageUpdateAll dt (rk4State0 charges) (rk4K3 charges magnets dt options)
    (rk4Cs3 charges magnets dt options)

def rk4Cs4 (charges : List Charge) (magnets : List Magnet) (dt : ℝ)
    (options : SimOptions) : List Charge :=
  computeAccelerations (rk4Stage4In charges magnets dt options) magnets options

def rk4K4 (charges : List Charge) (magnets : List Magnet) (dt : ℝ)
    (options : SimOptions) : List ChargeDeriv :=
  (rk4Cs4 charges magnets dt options).map derivOf

/-- Final RK4 combination for one charge (src/electro.js lines 462-474). -/
def rk4Combine (dt damping : ℝ) (s : ChargeState) (k1 k2 k3 k4 : ChargeDeriv)
    (c : Charge) : Charge :=
  if c.pinned then c
  else
    let dxdt := (k1.x + 2 * k2.x + 2 * k3.x + k4.x) / 6
    let dydt := (k1.y + 2 * k2.y + 2 * k3.y + k4.y) / 6
    let dvxdt := (k1.vx + 2 * k2.vx + 2 * k3.vx + k4.vx) / 6
    let dvydt := (k1.vy + 2 * k2.vy + 2 * k3.vy + k4.vy) / 6
    { c with x := s.x + dt * dxdt, y := s.y + dt * dydt,
             vx := (s.vx + dt * dvxdt) * damping, vy := (s.vy + dt * dvydt) * damping }

/-- stepPhysicsRK4 (src/electro.js lines 403-475). -/
def stepPhysicsRK4 (charges : List Charge) (magnets : List Magnet) (dt : ℝ)
    (options : SimOptions) : List Charge :=
  List.zipWith
    (fun pk c => rk4Combine dt options.damping pk.1 pk.2.1 pk.2.2.1 pk.2.2.2.1 pk.2.2.2.2 c)
    ((rk4State0 charges).zip ((rk4K1 charges magnets options).zip
      ((rk4K2 charges magnets dt options).zip ((rk4K3 charges magnets dt options).zip
        (rk4K4 charges magnets dt options)))))
    (rk4Cs4 charges magnets dt options)

/-- stepPhysicsUsingFields (src/electro.js lines 478-519): per-charge field
sum over all other charges, then the same Euler integration. -/
def stepPhysicsUsingFields (charges : List Charge) (dt : ℝ)
    (options : SimOptions) : List Charge :=
  let k := options.k
  let soft := options.softening
  let N := charges.length
  let cs := (List.range N).map fun i =>
    let c := charges.getD i default
    let E := (List.range N).foldl
      (fun E j =>
        if i = j then E
        else (E.1 + (fieldContrib k soft c.x c.y (charges.getD j default)).1,
              E.2 + (fieldContrib k soft c.x c.y (charges.getD j default)).2)) (0, 0)
    { c with ax := c.q * E.1 / c.m, ay := c.q * E.2 / c.m }
  cs.map (integrateEuler dt options.damping)

/-- A finite sequence of integrator calls, each with its own magnet set,
time step and options; the boolean selects RK4 (animation loop,
src/electro.js lines 744-756). -/
def runSteps (charges : List Charge)
    (steps : List (Bool × List Magnet × ℝ × SimOptions)) : List Charge :=
  steps.foldl
    (fun cs s => if s.1 then stepPhysicsRK4 cs s.2.1 s.2.2.1 s.2.2.2
                 else stepPhysics cs s.2.1 s.2.2.1 s.2.2.2) charges

/-- The electric field contribution of one charge exactly as the spec words
it, with the softened squared distance raised to the power 3/2
(spec section 4.1). -/
def specFieldContrib (k soft x y : ℝ) (c : Charge) : ℝ × ℝ :=
  let dx := x - c.x
  let dy := y - c.y
  (k * c.q * dx / (dx ^ 2 + dy ^ 2 + soft ^ 2) ^ ((3:ℝ)/2),
   k * c.q * dy / (dx ^ 2 + dy ^ 2 + soft ^ 2) ^ ((3:ℝ)/2))

/-- Position and velocity of a charge, the part pinning protects. -/
def posvel (c : Charge) : ℝ × ℝ × ℝ × ℝ := (c.x, c.y, c.vx, c.vy)

/-- The fields of a charge that the acceleration pass never writes. -/
def staticPart (c : Charge) : ℝ × ℝ × ℝ × ℝ × ℝ × ℝ × Bool :=
  (c.x, c.y, c.vx, c.vy, c.q, c.m, c.pinned)

/-- Clamped contribution that the pair p adds to the acceleration of the
charge at index t during the double loop. -/
def pairContrib (k soft maxAccel : ℝ) (cs : List Charge) (t : ℕ) (p : ℕ × ℕ) : ℝ × ℝ :=
  if t = p.1 then
    clampInc maxAccel (preClampIncA k soft (cs.getD p.1 default) (cs.getD p.2 default))
  else if t = p.2 then
    clampInc maxAccel (preClampIncB k soft (cs.getD p.1 default) (cs.getD p.2 default))
  else (0, 0)

/- List toolbox: getD, set, zipWith, fold-to-sum conversion. -/

theorem getD_map {α β : Type} [Inhabited α] [Inhabited β] (f : α → β) :
    ∀ (l : List α) (i : ℕ), i < l.length → (l.map f).getD i default = f (l.getD i default)
  | [], i, h => by simp at h
  | _ :: _, 0, _ => rfl
  | _ :: l, i + 1, h => by
    simpa using getD_map f l i (by simpa using h)

theorem getD_set_self {α : Type} [Inhabited α] :
    ∀ (l : List α) (i : ℕ), i < l.length → ∀ (a : α), (l.set i a).getD i default = a
  | [], i, h, _ => by simp at h
  | _ :: _, 0, _, _ => rfl
  | _ :: l, i + 1, h, a => by
    simpa using getD_set_self l i (by simpa using h) a

theorem getD_set_ne {α : Type} [Inhabited α] :
    ∀ (l : List α) (i j : ℕ), i ≠ j → ∀ (a : α), (l.set i a).getD j default = l.getD j default
  | [], _, _, _, _ => by simp
  | _ :: _, 0, 0, h, _ => absurd rfl h
  | _ :: _, 0, j + 1, _, _ => by simp
  | _ :: _, i + 1, 0, _, _ => by simp
  | _ :: l, i + 1, j + 1, h, a => by
    simpa using getD_set_ne l i j (fun hc => h (by omega)) a

theorem getD_zipWith {α β γ : Type} [Inhabited α] [Inhabited β] [Inhabited γ]
    (f : α → β → γ) :
    ∀ (l1 : List α) (l2 : List β) (i : ℕ), i < l1.length → i < l2.length →
      (List.zipWith f l1 l2).getD i default = f (l1.getD i default) (l2.getD i default)
  | [], _, i, h, _ => by simp at h
  | _ :: _, [], i, _, h => by simp at h
  | _ :: _, _ :: _, 0, _, _ => rfl
  | _ :: l1, _ :: l2, i + 1, h1, h2 => by
    simpa using getD_zipWith f l1 l2 i (by simpa using h1) (by simpa using h2)

theorem getD_zip {α β : Type} [Inhabited α] [Inhabited β] :
    ∀ (l1 : List α) (l2 : List β) (i : ℕ), i < l1.length → i < l2.length →
      (l1.zip l2).getD i default = (l1.getD i default, l2.getD i default)
  | [], _, i, h, _ => by simp at h
  | _ :: _, [], i, _, h => by simp at h
  | _ :: _, _ :: _, 0, _, _ => rfl
  | _ :: l1, _ :: l2, i + 1, h1, h2 => by
    simpa using getD_zip l1 l2 i (by simpa using h1) (by simpa using h2)

theorem foldl_addPair {α : Type} (g : α → ℝ × ℝ) :
    ∀ (l : List α) (p : ℝ × ℝ),
      l.foldl (fun E c => (E.1 + (g c).1, E.2 + (g c).2)) p
        = (p.1 + (l.map fun c => (g c).1).sum, p.2 + (l.map fun c => (g c).2).sum)
  | [], p => by simp
  | c :: l, p => by
    simp only [List.foldl_cons, List.map_cons, List.sum_cons]
    rw [foldl_addPair g l]
    refine Prod.ext ?_ ?_ <;> simp <;> ring

theorem foldl_addPair_skip (g : ℕ → ℝ × ℝ) (t : ℕ) :
    ∀ (l : List ℕ) (p : ℝ × ℝ),
      l.foldl (fun E j => if t = j then E else (E.1 + (g j).1, E.2 + (g j).2)) p
        = (p.1 + (l.map fun j => if t = j then 0 else (g j).1).sum,
           p.2 + (l.map fun j => if t = j then 0 else (g j).2).sum)
  | [], p => by simp
  | c :: l, p => by
    simp only [List.foldl_cons, List.map_cons, List.sum_cons]
    by_cases h : t = c
    · rw [if_pos h, if_pos h, if_pos h, foldl_addPair_skip g t l]
      refine Prod.ext ?_ ?_ <;> simp
    · rw [if_neg h, if_neg h, if_neg h, foldl_addPair_skip g t l]
      refine Prod.ext ?_ ?_ <;> simp <;> ring

theorem sum_foldr_append {α : Type} (f : α → ℝ) :
    ∀ (rows : List (List α)),
      ((rows.foldr (fun row acc => row ++ acc) []).map f).sum
        = (rows.map fun row => (row.map f).sum).sum
  | [] => by simp
  | r :: rows => by simp [sum_foldr_append f rows]

theorem sum_ite_range' (v : ℕ → ℝ) (t : ℕ) :
    ∀ (n s : ℕ),
      ((List.range' s n).map fun j => if t = j then v j else 0).sum
        = if s ≤ t ∧ t < s + n then v t else 0
  | 0, s => by
    rw [if_neg (by omega)]
    simp
  | n + 1, s => by
    rw [List.range'_succ, List.map_cons, List.sum_cons, sum_ite_range' v t n (s + 1)]
    by_cases h : t = s
    · rw [if_pos h, if_neg (by omega), if_pos (by omega), h]
      ring
    · rw [if_neg fun hc => h hc]
      by_cases h2 : s + 1 ≤ t ∧ t < s + 1 + n
      · rw [if_pos h2, if_pos (by omega)]
        ring
      · rw [if_neg h2, if_neg (by omega)]
        ring

theorem mem_foldr_append {α : Type} (a : α) :
    ∀ (rows : List (List α)),
      a ∈ rows.foldr (fun row acc => row ++ acc) [] ↔ ∃ r ∈ rows, a ∈ r
  | [] => by simp
  | r :: rows => by
    simp [mem_foldr_append a rows]

theorem pairIndices_mem {N : ℕ} {p : ℕ × ℕ} (h : p ∈ pairIndices N) :
    p.1 < p.2 ∧ p.2 < N := by
  rcases (mem_foldr_append p _).mp h with ⟨r, hr, hpr⟩
  rcases List.mem_map.mp hr with ⟨i, hi, rfl⟩
  rcases List.mem_map.mp hpr with ⟨j, hj, rfl⟩
  have hiN : i < N := List.mem_range.mp hi
  have hj' : i + 1 ≤ j ∧ j < i + 1 + (N - (i + 1)) := List.mem_range'_1.mp hj
  constructor
  · omega
  · omega

/- Congruence along the static fields, and behaviour of one pair update. -/

theorem staticPart_fields {a b : Charge} (h : staticPart a = staticPart b) :
    a.x = b.x ∧ a.y = b.y ∧ a.vx = b.vx ∧ a.vy = b.vy ∧ a.q = b.q ∧ a.m = b.m ∧
      a.pinned = b.pinned := by
  simpa [staticPart, Prod.ext_iff] using h

theorem pairForce_congr (k s : ℝ) {a a' b b' : Charge}
    (ha : staticPart a = staticPart a') (hb : staticPart b = staticPart b') :
    pairForce k s a b = pairForce k s a' b' := by
  obtain ⟨hax, hay, -, -, haq, -, -⟩ := staticPart_fields ha
  obtain ⟨hbx, hby, -, -, hbq, -, -⟩ := staticPart_fields hb
  simp only [pairForce]
  rw [hax, hay, haq, hbx, hby, hbq]

theorem preClampIncA_congr (k s : ℝ) {a a' b b' : Charge}
    (ha : staticPart a = staticPart a') (hb : staticPart b = staticPart b') :
    preClampIncA k s a b = preClampIncA k s a' b' := by
  obtain ⟨-, -, -, -, -, ham, -⟩ := staticPart_fields ha
  simp only [preClampIncA]
  rw [pairForce_congr k s ha hb, ham]

theorem preClampIncB_congr (k s : ℝ) {a a' b b' : Charge}
    (ha : staticPart a = staticPart a') (hb : staticPart b = staticPart b') :
    preClampIncB k s a b = preClampIncB k s a' b' := by
  obtain ⟨-, -, -, -, -, hbm, -⟩ := staticPart_fields hb
  simp only [preClampIncB]
  rw [pairForce_congr k s ha hb, hbm]

theorem preClampIncB_eq_swap (k s : ℝ) (a b : Charge) :
    preClampIncB k s a b = preClampIncA k s b a := by
  simp only [preClampIncB, preClampIncA, pairForce]
  have h1 : (b.x - a.x) * (b.x - a.x) + (b.y - a.y) * (b.y - a.y) + s * s
      = (a.x - b.x) * (a.x - b.x) + (a.y - b.y) * (a.y - b.y) + s * s := by ring
  rw [h1]
  refine Prod.ext ?_ ?_ <;> simp <;> ring

theorem pairContrib_congr (k s M : ℝ) {cs cs' : List Charge}
    (h : ∀ u, staticPart (cs'.getD u default) = staticPart (cs.getD u default))
    (t : ℕ) (p : ℕ × ℕ) :
    pairContrib k s M cs' t p = pairContrib k s M cs t p := by
  have hA := preClampIncA_congr k s (h p.1) (h p.2)
  have hB := preClampIncB_congr k s (h p.1) (h p.2)
  simp only [pairContrib, hA, hB]

theorem length_applyPair (k s M : ℝ) (cs : List Charge) (p : ℕ × ℕ) :
    (applyPair k s M cs p).length = cs.length := by
  simp [applyPair]

theorem applyPair_static (k s M : ℝ) (cs : List Charge) (p : ℕ × ℕ) (t : ℕ) :
    staticPart ((applyPair k s M cs p).getD t default) = staticPart (cs.getD t default) := by
  by_cases ht : t < cs.length
  case neg =>
    have h1 : (applyPair k s M cs p).length ≤ t := by rw [length_applyPair]; omega
    rw [List.getD_eq_default _ _ h1, List.getD_eq_default _ _ (by omega)]
  case pos =>
    simp only [applyPair]
    by_cases h2 : t = p.2
    · subst h2
      rw [getD_set_self _ _ (by rw [List.length_set]; exact ht) _]
      simp [staticPart]
    · rw [getD_set_ne _ _ _ (fun hc => h2 hc.symm) _]
      by_cases h1 : t = p.1
      · subst h1
        rw [getD_set_self _ _ ht _]
        simp [staticPart]
      · rw [getD_set_ne _ _ _ (fun hc => h1 hc.symm) _]

theorem foldl_applyPair_static (k s M : ℝ) :
    ∀ (P : List (ℕ × ℕ)) (cs : List Charge) (t : ℕ),
      staticPart ((P.foldl (applyPair k s M) cs).getD t default)
        = staticPart (cs.getD t default)
  | [], _, _ => rfl
  | p :: P, cs, t => by
    rw [List.foldl_cons, foldl_applyPair_static k s M P _ t, applyPair_static]

theorem length_foldl_applyPair (k s M : ℝ) :
    ∀ (P : List (ℕ × ℕ)) (cs : List Charge),
      (P.foldl (applyPair k s M) cs).length = cs.length
  | [], _ => rfl
  | p :: P, cs => by
    rw [List.foldl_cons, length_foldl_applyPair k s M P, length_applyPair]

theorem applyPair_acc (k s M : ℝ) (cs : List Charge) (p : ℕ × ℕ)
    (hp1 : p.1 < cs.length) (hp2 : p.2 < cs.length) (hne : p.1 ≠ p.2) (t : ℕ) :
    ((applyPair k s M cs p).getD t default).ax
        = (cs.getD t default).ax + (pairContrib k s M cs t p).1
      ∧ ((applyPair k s M cs p).getD t default).ay
        = (cs.getD t default).ay + (pairContrib k s M cs t p).2 := by
  by_cases ht : t < cs.length
  case neg =>
    have h1 : (applyPair k s M cs p).length ≤ t := by rw [length_applyPair]; omega
    have hc : pairContrib k s M cs t p = (0, 0) := by
      simp only [pairContrib]
      rw [if_neg (by omega), if_neg (by omega)]
    rw [List.getD_eq_default _ _ h1, List.getD_eq_default _ _ (by omega), hc]
    constructor <;> simp
  case pos =>
    by_cases h2 : t = p.2
    · subst h2
      simp only [applyPair]
      rw [getD_set_self _ _ (by rw [List.length_set]; exact ht) _]
      simp only [pairContrib]
      rw [if_neg (by omega)]
      simp
    · by_cases h1 : t = p.1
      · subst h1
        simp only [applyPair]
        rw [getD_set_ne _ _ _ (fun hc => h2 hc.symm) _, getD_set_self _ _ ht _]
        simp only [pairContrib]
        simp
      · have hc : pairContrib k s M cs t p = (0, 0) := by
          simp only [pairContrib]
          rw [if_neg h1, if_neg h2]
        simp only [applyPair]
        rw [getD_set_ne _ _ _ (fun hc => h2 hc.symm) _,
          getD_set_ne _ _ _ (fun hc => h1 hc.symm) _, hc]
        constructor <;> simp

theorem foldl_applyPair_acc (k s M : ℝ) :
    ∀ (P : List (ℕ × ℕ)) (cs : List Charge),
      (∀ p ∈ P, p.1 < cs.length ∧ p.2 < cs.length ∧ p.1 ≠ p.2) → ∀ t,
      ((P.foldl (applyPair k s M) cs).getD t default).ax
          = (cs.getD t default).ax + (P.map fun p => (pairContrib k s M cs t p).1).sum
        ∧ ((P.foldl (applyPair k s M) cs).getD t default).ay
          = (cs.getD t default).ay + (P.map fun p => (pairContrib k s M cs t p).2).sum
  | [], cs, _, t => by simp
  | p :: P, cs, hv, t => by
    have hp := hv p (List.mem_cons_self p P)
    have hrec := foldl_applyPair_acc k s M P (applyPair k s M cs p)
      (fun q hq => by
        rw [length_applyPair]
        exact hv q (List.mem_cons_of_mem p hq)) t
    have hcongr : ∀ q, pairContrib k s M (applyPair k s M cs p) t q
        = pairContrib k s M cs t q :=
      fun q => pairContrib_congr k s M (fun u => applyPair_static k s M cs p u) t q
    have happ := applyPair_acc k s M cs p hp.1 hp.2.1 hp.2.2 t
    rw [List.foldl_cons]
    constructor
    · rw [hrec.1, happ.1, List.map_cons, List.sum_cons,
        List.map_congr_left (fun q _ => congrArg Prod.fst (hcongr q))]
      ring
    · rw [hrec.2, happ.2, List.map_cons, List.sum_cons,
        List.map_congr_left (fun q _ => congrArg Prod.snd (hcongr q))]
      ring

/- Reindexing the pairwise double-loop sum into a per-partner sum. -/

theorem sum_pair_rows (A Bf : ℕ → ℕ → ℝ) (hBA : ∀ i j, Bf i j = A j i)
    (N t : ℕ) (ht : t < N) :
    ((pairIndices N).map fun p =>
        if t = p.1 then A p.1 p.2 else if t = p.2 then Bf p.1 p.2 else 0).sum
      = ((List.range N).map fun j => if t = j then 0 else A t j).sum := by
  have hstep1 := sum_foldr_append
    (fun p : ℕ × ℕ => if t = p.1 then A p.1 p.2 else if t = p.2 then Bf p.1 p.2 else 0)
    ((List.range N).map fun i => (List.range' (i + 1) (N - (i + 1))).map fun j => (i, j))
  rw [show pairIndices N = ((List.range N).map fun i =>
      (List.range' (i + 1) (N - (i + 1))).map fun j => (i, j)).foldr
      (fun row acc => row ++ acc) [] from rfl, hstep1, List.map_map]
  have hrow : ∀ i ∈ List.range N,
      ((fun row => (List.map (fun p : ℕ × ℕ =>
          if t = p.1 then A p.1 p.2 else if t = p.2 then Bf p.1 p.2 else 0) row).sum) ∘
        fun i => (List.range' (i + 1) (N - (i + 1))).map fun j => (i, j)) i
        = if t = i then ((List.range' (t + 1) (N - (t + 1))).map fun j => A t j).sum
          else if i < t then A t i else 0 := by
    intro i hi
    simp only [Function.comp, List.map_map]
    by_cases hti : t = i
    · subst hti
      rw [if_pos rfl]
      refine congrArg List.sum ?_
      refine List.map_congr_left fun j _ => ?_
      simp
    · rw [if_neg hti]
      rw [List.map_congr_left (fun j _ => show ((fun p : ℕ × ℕ =>
          if t = p.1 then A p.1 p.2 else if t = p.2 then Bf p.1 p.2 else 0) ∘
            fun j => (i, j)) j = if t = j then A j i else 0 from by
        simp only [Function.comp]
        rw [if_neg hti, hBA])]
      rw [sum_ite_range' (fun j => A j i) t (N - (i + 1)) (i + 1)]
      have hi' : i < N := List.mem_range.mp hi
      by_cases hlt : i < t
      · rw [if_pos (by omega), if_pos hlt]
      · rw [if_neg (by omega), if_neg hlt]
  rw [List.map_congr_left hrow]
  have hsplit : List.range N = List.range' 0 t ++ t :: List.range' (t + 1) (N - (t + 1)) := by
    have h1 : List.range' 0 t ++ List.range' (0 + t) (N - t) = List.range' 0 (N - t + t) :=
      List.range'_append_1 0 t (N - t)
    rw [show N - t + t = N by omega] at h1
    rw [List.range_eq_range', ← h1]
    simp only [Nat.zero_add]
    congr 1
    rw [show N - t = N - (t + 1) + 1 by omega, List.range'_succ]
  rw [hsplit]
  simp only [List.map_append, List.sum_append, List.map_cons, List.sum_cons, if_true]
  have hleft : (List.range' 0 t).map (fun i =>
      if t = i then ((List.range' (t + 1) (N - (t + 1))).map fun j => A t j).sum
      else if i < t then A t i else 0)
      = (List.range' 0 t).map fun i => A t i := by
    refine List.map_congr_left fun i hi => ?_
    have : i < t := by
      have := List.mem_range'_1.mp hi
      omega
    rw [if_neg (by omega), if_pos this]
  have hleft2 : (List.range' 0 t).map (fun j => if t = j then 0 else A t j)
      = (List.range' 0 t).map fun j => A t j := by
    refine List.map_congr_left fun j hj => ?_
    have : j < t := by
      have := List.mem_range'_1.mp hj
      omega
    rw [if_neg (by omega)]
  have hright : (List.range' (t + 1) (N - (t + 1))).map (fun i =>
      if t = i then ((List.range' (t + 1) (N - (t + 1))).map fun j => A t j).sum
      else if i < t then A t i else 0)
      = (List.range' (t + 1) (N - (t + 1))).map fun _ => (0:ℝ) := by
    refine List.map_congr_left fun i hi => ?_
    have : t + 1 ≤ i := by
      have := List.mem_range'_1.mp hi
      omega
    rw [if_neg (by omega), if_neg (by omega)]
  have hright2 : (List.range' (t + 1) (N - (t + 1))).map (fun j => if t = j then 0 else A t j)
      = (List.range' (t + 1) (N - (t + 1))).map fun j => A t j := by
    refine List.map_congr_left fun j hj => ?_
    have : t + 1 ≤ j := by
      have := List.mem_range'_1.mp hj
      omega
    rw [if_neg (by omega)]
  rw [hleft, hleft2, hright, hright2]
  have hz : ((List.range' (t + 1) (N - (t + 1))).map fun _ => (0:ℝ)).sum = 0 := by simp
  rw [hz]
  ring

/- Clamp and Lorentz helpers. -/

theorem clampInc_of_le (M : ℝ) (v : ℝ × ℝ)
    (h : Real.sqrt (v.1 * v.1 + v.2 * v.2) ≤ M) : clampInc M v = v := by
  simp only [clampInc]
  rw [if_neg (not_lt.mpr h)]

theorem lorentzAccel_nil (options : SimOptions) (c : Charge) :
    lorentzAccel [] options c = (0, 0) := by
  simp [lorentzAccel, totalMagneticFieldAt]

theorem lorentzAccel_congr (magnets : List Magnet) (options : SimOptions)
    {c c' : Charge} (h : staticPart c = staticPart c') :
    lorentzAccel magnets options c = lorentzAccel magnets options c' := by
  obtain ⟨hx, hy, hvx, hvy, hq, hm, -⟩ := staticPart_fields h
  simp only [lorentzAccel]
  rw [hx, hy, hvx, hvy, hq, hm]

theorem zeroed_static (charges : List Charge) (u : ℕ) :
    staticPart ((charges.map zeroAccel).getD u default)
      = staticPart (charges.getD u default) := by
  by_cases hu : u < charges.length
  · rw [getD_map _ _ u hu]
    simp [staticPart, zeroAccel]
  · rw [List.getD_eq_default _ _ (by simpa using hu),
      List.getD_eq_default _ _ (by omega)]

theorem length_computeAccelerations (charges : List Charge) (magnets : List Magnet)
    (options : SimOptions) :
    (computeAccelerations charges magnets options).length = charges.length := by
  simp only [computeAccelerations, List.length_map]
  rw [length_foldl_applyPair]
  simp

theorem addLorentz_static (magnets : List Magnet) (options : SimOptions) (c : Charge) :
    staticPart (addLorentz magnets options c) = staticPart c := by
  simp [addLorentz, staticPart]

theorem computeAccelerations_static (charges : List Charge) (magnets : List Magnet)
    (options : SimOptions) (u : ℕ) :
    staticPart ((computeAccelerations charges magnets options).getD u default)
      = staticPart (charges.getD u default) := by
  by_cases hu : u < charges.length
  · simp only [computeAccelerations]
    rw [getD_map _ _ u (by rw [length_foldl_applyPair]; simpa using hu)]
    rw [addLorentz_static, foldl_applyPair_static, zeroed_static]
  · rw [List.getD_eq_default _ _ (by rw [length_computeAccelerations]; omega),
      List.getD_eq_default _ _ (by omega)]

/-- Pointwise value of computeAccelerations: the static fields are kept, and
the acceleration becomes the sum over all partners of the clamped pairwise
increment, plus the magnetic coupling term. -/
theorem computeAccelerations_getD (charges : List Charge) (magnets : List Magnet)
    (options : SimOptions) (t : ℕ) (ht : t < charges.length) :
    (computeAccelerations charges magnets options).getD t default
      = { charges.getD t default with
          ax := ((List.range charges.length).map fun j =>
              if t = j then 0
              else (clampInc options.maxAccel (preClampIncA options.k options.softening
                (charges.getD t default) (charges.getD j default))).1).sum
            + (lorentzAccel magnets options (charges.getD t default)).1,
          ay := ((List.range charges.length).map fun j =>
              if t = j then 0
              else (clampInc options.maxAccel (preClampIncA options.k options.softening
                (charges.getD t default) (charges.getD j default))).2).sum
            + (lorentzAccel magnets options (charges.getD t default)).2 } := by
  simp only [computeAccelerations]
  rw [getD_map _ _ t (by rw [length_foldl_applyPair]; simpa using ht)]
  have hvalid : ∀ p ∈ pairIndices charges.length,
      p.1 < (charges.map zeroAccel).length ∧ p.2 < (charges.map zeroAccel).length
        ∧ p.1 ≠ p.2 := by
    intro p hp
    have h := pairIndices_mem hp
    refine ⟨?_, ?_, ?_⟩
    · simp only [List.length_map]
      omega
    · simp only [List.length_map]
      omega
    · omega
  have hacc := foldl_applyPair_acc options.k options.softening options.maxAccel
    (pairIndices charges.length) (charges.map zeroAccel) hvalid t
  have hstatF : staticPart (((pairIndices charges.length).foldl
      (applyPair options.k options.softening options.maxAccel)
      (charges.map zeroAccel)).getD t default) = staticPart (charges.getD t default) := by
    rw [foldl_applyPair_static, zeroed_static]
  have hcongr : ∀ p, pairContrib options.k options.softening options.maxAccel
      (charges.map zeroAccel) t p
      = pairContrib options.k options.softening options.maxAccel charges t p :=
    fun p => pairContrib_congr _ _ _ (zeroed_static charges) t p
  have hproj1 : ((pairIndices charges.length).map fun p =>
      (pairContrib options.k options.softening options.maxAccel charges t p).1)
      = (pairIndices charges.length).map fun p =>
        if t = p.1 then (clampInc options.maxAccel (preClampIncA options.k options.softening
            (charges.getD p.1 default) (charges.getD p.2 default))).1
        else if t = p.2 then (clampInc options.maxAccel (preClampIncB options.k options.softening
            (charges.getD p.1 default) (charges.getD p.2 default))).1
        else 0 := by
    refine List.map_congr_left fun p _ => ?_
    simp only [pairContrib]
    by_cases h1 : t = p.1
    · rw [if_pos h1, if_pos h1]
    · rw [if_neg h1, if_neg h1]
      by_cases h2 : t = p.2
      · rw [if_pos h2, if_pos h2]
      · rw [if_neg h2, if_neg h2]
  have hproj2 : ((pairIndices charges.length).map fun p =>
      (pairContrib options.k options.softening options.maxAccel charges t p).2)
      = (pairIndices charges.length).map fun p =>
        if t = p.1 then (clampInc options.maxAccel (preClampIncA options.k options.softening
            (charges.getD p.1 default) (charges.getD p.2 default))).2
        else if t = p.2 then (clampInc options.maxAccel (preClampIncB options.k options.softening
            (charges.getD p.1 default) (charges.getD p.2 default))).2
        else 0 := by
    refine List.map_congr_left fun p _ => ?_
    simp only [pairContrib]
    by_cases h1 : t = p.1
    · rw [if_pos h1, if_pos h1]
    · rw [if_neg h1, if_neg h1]
      by_cases h2 : t = p.2
      · rw [if_pos h2, if_pos h2]
      · rw [if_neg h2, if_neg h2]
  have hsum1 := sum_pair_rows
    (fun i j => (clampInc options.maxAccel (preClampIncA options.k options.softening
      (charges.getD i default) (charges.getD j default))).1)
    (fun i j => (clampInc options.maxAccel (preClampIncB options.k options.softening
      (charges.getD i default) (charges.getD j default))).1)
    (fun i j => by simp only [preClampIncB_eq_swap]) charges.length t ht
  have hsum2 := sum_pair_rows
    (fun i j => (clampInc options.maxAccel (preClampIncA options.k options.softening
      (charges.getD i default) (charges.getD j default))).2)
    (fun i j => (clampInc options.maxAccel (preClampIncB options.k options.softening
      (charges.getD i default) (charges.getD j default))).2)
    (fun i j => by simp only [preClampIncB_eq_swap]) charges.length t ht
  have h0 : (charges.map zeroAccel).getD t default = zeroAccel (charges.getD t default) :=
    getD_map _ _ t ht
  obtain ⟨hx, hy, hvx, hvy, hq, hm, hp⟩ := staticPart_fields hstatF
  refine Charge.ext _ _ ?_ ?_ ?_ ?_ ?_ ?_ ?_ ?_ ?_
  · exact hx
  · exact hy
  · exact hvx
  · exact hvy
  · show _ + (lorentzAccel magnets options _).1 = _
    rw [hacc.1, lorentzAccel_congr magnets options hstatF, h0,
      List.map_congr_left (fun p _ => congrArg Prod.fst (hcongr p)), hproj1, hsum1]
    simp [zeroAccel]
  · show _ + (lorentzAccel magnets options _).2 = _
    rw [hacc.2, lorentzAccel_congr magnets options hstatF, h0,
      List.map_congr_left (fun p _ => congrArg Prod.snd (hcongr p)), hproj2, hsum2]
    simp [zeroAccel]
  · exact hq
  · exact hm
  · exact hp

/- Lengths of every intermediate list of one RK4 step. -/

theorem default_charge_pinned : (default : Charge).pinned = false := rfl

theorem posvel_of_static {c c' : Charge} (h : staticPart c' = staticPart c) :
    posvel c' = posvel c := by
  obtain ⟨hx, hy, hvx, hvy, -, -, -⟩ := staticPart_fields h
  simp only [posvel]
  rw [hx, hy, hvx, hvy]

theorem pinned_of_static {c c' : Charge} (h : staticPart c' = staticPart c) :
    c'.pinned = c.pinned :=
  (staticPart_fields h).2.2.2.2.2.2

theorem length_stageUpdateAll (h : ℝ) (s0 : List ChargeState) (ks : List ChargeDeriv)
    (cs : List Charge) :
    (stageUpdateAll h s0 ks cs).length = min (min s0.length ks.length) cs.length := by
  simp [stageUpdateAll, List.length_zipWith, List.length_zip]

theorem length_rk4State0 (charges : List Charge) :
    (rk4State0 charges).length = charges.length := by
  simp [rk4State0]

theorem length_rk4Cs1 (charges : List Charge) (magnets : List Magnet)
    (options : SimOptions) :
    (rk4Cs1 charges magnets options).length = charges.length :=
  length_computeAccelerations charges magnets options

theorem length_rk4K1 (charges : List Charge) (magnets : List Magnet)
    (options : SimOptions) :
    (rk4K1 charges magnets options).length = charges.length := by
  simp only [rk4K1, List.length_map]
  exact length_rk4Cs1 charges magnets options

theorem length_rk4Stage2In (charges : List Charge) (magnets : List Magnet) (dt : ℝ)
    (options : SimOptions) :
    (rk4Stage2In charges magnets dt options).length = charges.length := by
  rw [rk4Stage2In, length_stageUpdateAll, length_rk4State0, length_rk4K1, length_rk4Cs1]
  simp

theorem length_rk4Cs2 (charges : List Charge) (magnets : List Magnet) (dt : ℝ)
    (options : SimOptions) :
    (rk4Cs2 charges magnets dt options).length = charges.length := by
  rw [rk4Cs2, length_computeAccelerations, length_rk4Stage2In]

theorem length_rk4K2 (charges : List Charge) (magnets : List Magnet) (dt : ℝ)
    (options : SimOptions) :
    (rk4K2 charges magnets dt options).length = charges.length := by
  simp only [rk4K2, List.length_map]
  exact length_rk4Cs2 charges magnets dt options

theorem length_rk4Stage3In (charges : List Charge) (magnets : List Magnet) (dt : ℝ)
    (options : SimOptions) :
    (rk4Stage3In charges magnets dt options).length = charges.length := by
  rw [rk4Stage3In, length_stageUpdateAll, length_rk4State0, length_rk4K2, length_rk4Cs2]
  simp

theorem length_rk4Cs3 (charges : List Charge) (magnets : List Magnet) (dt : ℝ)
    (options : SimOptions) :
    (rk4Cs3 charges magnets dt options).length = charges.length := by
  rw [rk4Cs3, length_computeAccelerations, length_rk4Stage3In]

theorem length_rk4K3 (charges : List Charge) (magnets : List Magnet) (dt : ℝ)
    (options : SimOptions) :
    (rk4K3 charges magnets dt options).length = charges.length := by
  simp only [rk4K3, List.length_map]
  exact length_rk4Cs3 charges magnets dt options

theorem length_rk4Stage4In (charges : List Charge) (magnets : List Magnet) (dt : ℝ)
    (options : SimOptions) :
    (rk4Stage4In charges magnets dt options).length = charges.length := by
  rw [rk4Stage4In, length_stageUpdateAll, length_rk4State0, length_rk4K3, length_rk4Cs3]
  simp

theorem length_rk4Cs4 (charges : List Charge) (magnets : List Magnet) (dt : ℝ)
    (options : SimOptions) :
    (rk4Cs4 charges magnets dt options).length = charges.length := by
  rw [rk4Cs4, length_computeAccelerations, length_rk4Stage4In]

theorem length_rk4K4 (charges : List Charge) (magnets : List Magnet) (dt : ℝ)
    (options : SimOptions) :
    (rk4K4 charges magnets dt options).length = charges.length := by
  simp only [rk4K4, List.length_map]
  exact length_rk4Cs4 charges magnets dt options

theorem length_stepPhysics (charges : List Charge) (magnets : List Magnet) (dt : ℝ)
    (options : SimOptions) :
    (stepPhysics charges magnets dt options).length = charges.length := by
  simp only [stepPhysics, List.length_map]
  exact length_computeAccelerations charges magnets options

theorem length_stepPhysicsRK4 (charges : List Charge) (magnets : List Magnet) (dt : ℝ)
    (options : SimOptions) :
    (stepPhysicsRK4 charges magnets dt options).length = charges.length := by
  rw [stepPhysicsRK4, List.length_zipWith, List.length_zip, List.length_zip,
    List.length_zip, List.length_zip, length_rk4State0, length_rk4K1, length_rk4K2,
    length_rk4K3, length_rk4K4, length_rk4Cs4]
  simp

/- Pinning: one Euler step, each RK4 stage, and the RK4 combination leave a
pinned charge's element untouched. -/

theorem stepPhysics_pinned (charges : List Charge) (magnets : List Magnet) (dt : ℝ)
    (options : SimOptions) (i : ℕ) (hp : (charges.getD i default).pinned = true) :
    posvel ((stepPhysics charges magnets dt options).getD i default)
        = posvel (charges.getD i default)
      ∧ ((stepPhysics charges magnets dt options).getD i default).pinned = true := by
  have hi : i < charges.length := by
    by_contra hni
    rw [List.getD_eq_default _ _ (by omega), default_charge_pinned] at hp
    exact Bool.noConfusion hp
  have hCA := computeAccelerations_static charges magnets options i
  have hpinCA : ((computeAccelerations charges magnets options).getD i default).pinned
      = true := by
    rw [pinned_of_static hCA]
    exact hp
  simp only [stepPhysics]
  rw [getD_map _ _ i (by rw [length_computeAccelerations]; exact hi)]
  rw [show integrateEuler dt options.damping
      ((computeAccelerations charges magnets options).getD i default)
      = (computeAccelerations charges magnets options).getD i default from by
    simp only [integrateEuler]
    rw [if_pos hpinCA]]
  exact ⟨posvel_of_static hCA, hpinCA⟩

theorem stageUpdateAll_pinned (h : ℝ) (s0 : List ChargeState) (ks : List ChargeDeriv)
    (cs : List Charge) (i : ℕ) (hi1 : i < s0.length) (hi2 : i < ks.length)
    (hi3 : i < cs.length) (hp : (cs.getD i default).pinned = true) :
    (stageUpdateAll h s0 ks cs).getD i default = cs.getD i default := by
  simp only [stageUpdateAll]
  rw [getD_zipWith _ _ _ i (by rw [List.length_zip]; omega) hi3]
  simp only [stageUpdate]
  rw [if_pos hp]

theorem stageUpdateAll_pinned_flag (h : ℝ) (s0 : List ChargeState) (ks : List ChargeDeriv)
    (cs : List Charge) (i : ℕ) (hi1 : i < s0.length) (hi2 : i < ks.length)
    (hi3 : i < cs.length) :
    ((stageUpdateAll h s0 ks cs).getD i default).pinned = (cs.getD i default).pinned := by
  simp only [stageUpdateAll]
  rw [getD_zipWith _ _ _ i (by rw [List.length_zip]; omega) hi3]
  by_cases hc : (cs.getD i default).pinned = true
  · simp only [stageUpdate]
    rw [if_pos hc]
  · simp only [stageUpdate]
    rw [if_neg hc]

/-- A pinned charge is left untouched by every stage state of an RK4 step and
by the final combination. -/
theorem rk4_pinned_all (charges : List Charge) (magnets : List Magnet) (dt : ℝ)
    (options : SimOptions) (i : ℕ) (hp : (charges.getD i default).pinned = true) :
    staticPart ((rk4Stage2In charges magnets dt options).getD i default)
        = staticPart (charges.getD i default)
      ∧ staticPart ((rk4Stage3In charges magnets dt options).getD i default)
        = staticPart (charges.getD i default)
      ∧ staticPart ((rk4Stage4In charges magnets dt options).getD i default)
        = staticPart (charges.getD i default)
      ∧ posvel ((stepPhysicsRK4 charges magnets dt options).getD i default)
        = posvel (charges.getD i default)
      ∧ ((stepPhysicsRK4 charges magnets dt options).getD i default).pinned = true := by
  have hi : i < charges.length := by
    by_contra hni
    rw [List.getD_eq_default _ _ (by omega), default_charge_pinned] at hp
    exact Bool.noConfusion hp
  have h1 : staticPart ((rk4Cs1 charges magnets options).getD i default)
      = staticPart (charges.getD i default) := by
    simp only [rk4Cs1]
    exact computeAccelerations_static charges magnets options i
  have hp1 : ((rk4Cs1 charges magnets options).getD i default).pinned = true := by
    rw [pinned_of_static h1]
    exact hp
  have hs2 : (rk4Stage2In charges magnets dt options).getD i default
      = (rk4Cs1 charges magnets options).getD i default := by
    simp only [rk4Stage2In]
    exact stageUpdateAll_pinned _ _ _ _ i (by rw [length_rk4State0]; exact hi)
      (by rw [length_rk4K1]; exact hi) (by rw [length_rk4Cs1]; exact hi) hp1
  have h2 : staticPart ((rk4Stage2In charges magnets dt options).getD i default)
      = staticPart (charges.getD i default) := by
    rw [hs2]
    exact h1
  have h3 : staticPart ((rk4Cs2 charges magnets dt options).getD i default)
      = staticPart (charges.getD i default) := by
    simp only [rk4Cs2]
    rw [computeAccelerations_static]
    exact h2
  have hp3 : ((rk4Cs2 charges magnets dt options).getD i default).pinned = true := by
    rw [pinned_of_static h3]
    exact hp
  have hs3 : (rk4Stage3In charges magnets dt options).getD i default
      = (rk4Cs2 charges magnets dt options).getD i default := by
    simp only [rk4Stage3In]
    exact stageUpdateAll_pinned _ _ _ _ i (by rw [length_rk4State0]; exact hi)
      (by rw [length_rk4K2]; exact hi) (by rw [length_rk4Cs2]; exact hi) hp3
  have h4 : staticPart ((rk4Stage3In charges magnets dt options).getD i default)
      = staticPart (charges.getD i default) := by
    rw [hs3]
    exact h3
  have h5 : staticPart ((rk4Cs3 charges magnets dt options).getD i default)
      = staticPart (charges.getD i default) := by
    simp only [rk4Cs3]
    rw [computeAccelerations_static]
    exact h4
  have hp5 : ((rk4Cs3 charges magnets dt options).getD i default).pinned = true := by
    rw [pinned_of_static h5]
    exact hp
  have hs4 : (rk4Stage4In charges magnets dt options).getD i default
      = (rk4Cs3 charges magnets dt options).getD i default := by
    simp only [rk4Stage4In]
    exact stageUpdateAll_pinned _ _ _ _ i (by rw [length_rk4State0]; exact hi)
      (by rw [length_rk4K3]; exact hi) (by rw [length_rk4Cs3]; exact hi) hp5
  have h6 : staticPart ((rk4Stage4In charges magnets dt options).getD i default)
      = staticPart (charges.getD i default) := by
    rw [hs4]
    exact h5
  have h7 : staticPart ((rk4Cs4 charges magnets dt options).getD i default)
      = staticPart (charges.getD i default) := by
    simp only [rk4Cs4]
    rw [computeAccelerations_static]
    exact h6
  have hp7 : ((rk4Cs4 charges magnets dt options).getD i default).pinned = true := by
    rw [pinned_of_static h7]
    exact hp
  have hfin : (stepPhysicsRK4 charges magnets dt options).getD i default
      = (rk4Cs4 charges magnets dt options).getD i default := by
    simp only [stepPhysicsRK4]
    rw [getD_zipWith _ _ _ i
      (by
        rw [List.length_zip, List.length_zip, List.length_zip, List.length_zip,
          length_rk4State0, length_rk4K1, length_rk4K2, length_rk4K3, length_rk4K4]
        omega)
      (by rw [length_rk4Cs4]; exact hi)]
    simp only [rk4Combine]
    rw [if_pos hp7]
  refine ⟨h2, h4, h6, ?_, ?_⟩
  · rw [hfin]
    exact posvel_of_static h7
  · rw [hfin]
    exact hp7

theorem runSteps_pinned :
    ∀ (steps : List (Bool × List Magnet × ℝ × SimOptions)) (charges : List Charge) (i : ℕ),
      (charges.getD i default).pinned = true →
      posvel ((runSteps charges steps).getD i default) = posvel (charges.getD i default)
        ∧ ((runSteps charges steps).getD i default).pinned = true
  | [], _, _, hp => ⟨rfl, hp⟩
  | s :: steps, charges, i, hp => by
    have hstep : runSteps charges (s :: steps)
        = runSteps (if s.1 then stepPhysicsRK4 charges s.2.1 s.2.2.1 s.2.2.2
                    else stepPhysics charges s.2.1 s.2.2.1 s.2.2.2) steps := rfl
    rw [hstep]
    by_cases hb : s.1 = true
    · rw [if_pos hb]
      have h1 := rk4_pinned_all charges s.2.1 s.2.2.1 s.2.2.2 i hp
      have h2 := runSteps_pinned steps (stepPhysicsRK4 charges s.2.1 s.2.2.1 s.2.2.2) i
        h1.2.2.2.2
      exact ⟨h2.1.trans h1.2.2.2.1, h2.2⟩
    · rw [if_neg hb]
      have h1 := stepPhysics_pinned charges s.2.1 s.2.2.1 s.2.2.2 i hp
      have h2 := runSteps_pinned steps (stepPhysics charges s.2.1 s.2.2.1 s.2.2.2) i h1.2
      exact ⟨h2.1.trans h1.1, h2.2⟩

/-- Claim C2: a pinned charge's position (x, y) and velocity (vx, vy) are
exactly unchanged by stepPhysics, by stepPhysicsRK4, and by any finite
sequence of such calls, for every charge set, magnet set, dt and options;
moreover none of the three speculative RK4 stage states moves a pinned
charge away from its starting position or velocity. -/
theorem pinned_charge_invariant (charges : List Charge)
    (steps : List (Bool × List Magnet × ℝ × SimOptions))
    (magnets : List Magnet) (dt : ℝ) (options : SimOptions) (i : ℕ)
    (hp : (charges.getD i default).pinned = true) :
    posvel ((stepPhysics charges magnets dt options).getD i default)
        = posvel (charges.getD i default)
      ∧ posvel ((stepPhysicsRK4 charges magnets dt options).getD i default)
        = posvel (charges.getD i default)
      ∧ posvel ((runSteps charges steps).getD i default)
        = posvel (charges.getD i default)
      ∧ posvel ((rk4Stage2In charges magnets dt options).getD i default)
        = posvel (charges.getD i default)
      ∧ posvel ((rk4Stage3In charges magnets dt options).getD i default)
        = posvel (charges.getD i default)
      ∧ posvel ((rk4Stage4In charges magnets dt options).getD i default)
        = posvel (charges.getD i default) := by
  have h1 := stepPhysics_pinned charges magnets dt options i hp
  have h2 := rk4_pinned_all charges magnets dt options i hp
  have h3 := runSteps_pinned steps charges i hp
  exact ⟨h1.1, h2.2.2.2.1, h3.1, posvel_of_static h2.1, posvel_of_static h2.2.1,
    posvel_of_static h2.2.2.1⟩

/-- A concrete pinned charge used to witness the pinning claims. -/
def wPinned : Charge := ⟨1, 2, 3, 4, 0, 0, 1, 1, true⟩

/-- A concrete options record used by the witnesses. -/
def wOptions : SimOptions := ⟨1, 1/10, 999/1000, 2000⟩

/-- A concrete two-call schedule: one Euler step, then one RK4 step. -/
def wSteps : List (Bool × List Magnet × ℝ × SimOptions) :=
  [(false, [], 1, wOptions), (true, [], 1, wOptions)]

theorem pinned_charge_invariant_witness :
    (([wPinned] : List Charge).getD 0 default).pinned = true
      ∧ (posvel ((stepPhysics [wPinned] [] 1 wOptions).getD 0 default)
            = posvel (([wPinned] : List Charge).getD 0 default)
        ∧ posvel ((stepPhysicsRK4 [wPinned] [] 1 wOptions).getD 0 default)
            = posvel (([wPinned] : List Charge).getD 0 default)
        ∧ posvel ((runSteps [wPinned] wSteps).getD 0 default)
            = posvel (([wPinned] : List Charge).getD 0 default)
        ∧ posvel ((rk4Stage2In [wPinned] [] 1 wOptions).getD 0 default)
            = posvel (([wPinned] : List Charge).getD 0 default)
        ∧ posvel ((rk4Stage3In [wPinned] [] 1 wOptions).getD 0 default)
            = posvel (([wPinned] : List Charge).getD 0 default)
        ∧ posvel ((rk4Stage4In [wPinned] [] 1 wOptions).getD 0 default)
            = posvel (([wPinned] : List Charge).getD 0 default)) :=
  ⟨rfl, pinned_charge_invariant [wPinned] wSteps [] 1 wOptions 0 rfl⟩

/- Relating the code's sqrt(r2) * r2 denominators to the spec's 3/2 power. -/

theorem rpow_three_halves (a : ℝ) (h : 0 ≤ a) : a ^ ((3:ℝ)/2) = Real.sqrt a * a := by
  rw [show ((3:ℝ)/2) = (1/2 : ℝ) * 3 by norm_num, Real.rpow_mul h, ← Real.sqrt_eq_rpow,
    show ((3:ℝ)) = ((3:ℕ) : ℝ) by norm_num, Real.rpow_natCast]
  rcases eq_or_lt_of_le h with h0 | h0
  · rw [← h0]
    simp
  · have hs : Real.sqrt a * Real.sqrt a = a := Real.mul_self_sqrt h
    rw [show Real.sqrt a ^ 3 = Real.sqrt a * Real.sqrt a * Real.sqrt a by ring, hs]
    ring

theorem fieldContrib_eq_spec (k soft x y : ℝ) (c : Charge) :
    fieldContrib k soft x y c = specFieldContrib k soft x y c := by
  simp only [fieldContrib, specFieldContrib]
  have h : (0:ℝ) ≤ (x - c.x) * (x - c.x) + (y - c.y) * (y - c.y) + soft * soft :=
    add_nonneg (add_nonneg (mul_self_nonneg _) (mul_self_nonneg _)) (mul_self_nonneg _)
  have h2 : (x - c.x) ^ 2 + (y - c.y) ^ 2 + soft ^ 2
      = (x - c.x) * (x - c.x) + (y - c.y) * (y - c.y) + soft * soft := by ring
  rw [h2, rpow_three_halves _ h]
  refine Prod.ext ?_ ?_ <;>
  · dsimp only
    rw [one_div, div_eq_mul_inv]
    ring

/-- Claim C3: for every point, charge list, k and softening, electricFieldAt
returns exactly the componentwise sum, over every charge c, of
k q Δ / (|Δ|² + softening²)^(3/2) with Δ the vector from c to the point,
with no charge excluded from the sum. -/
theorem electricFieldAt_is_spec_sum (x y : ℝ) (charges : List Charge)
    (options : SimOptions) :
    electricFieldAt x y charges options
      = ((charges.map fun c => (specFieldContrib options.k options.softening x y c).1).sum,
         (charges.map fun c => (specFieldContrib options.k options.softening x y c).2).sum) := by
  simp only [electricFieldAt]
  rw [foldl_addPair (fieldContrib options.k options.softening x y) charges (0, 0)]
  simp only [fieldContrib_eq_spec, zero_add]

/-- Claim C9: totalMagneticFieldAt is the componentwise sum of
magneticFieldAt over the individual magnets, and in particular it returns
exactly (0, 0) for every point when the magnet set is empty. -/
theorem totalMagneticFieldAt_superposition (x y : ℝ) (magnets : List Magnet)
    (options : SimOptions) :
    totalMagneticFieldAt x y magnets options
        = ((magnets.map fun mg => (magneticFieldAt x y mg options).1).sum,
           (magnets.map fun mg => (magneticFieldAt x y mg options).2).sum)
      ∧ totalMagneticFieldAt x y ([] : List Magnet) options = (0, 0) := by
  constructor
  · simp only [totalMagneticFieldAt]
    rw [foldl_addPair (fun mg => magneticFieldAt x y mg options) magnets (0, 0)]
    simp only [zero_add]
  · rfl

/-- Claim C10: the magnetic Lorentz contribution computeAccelerations adds is
always perpendicular to the charge's velocity, and it vanishes entirely for
a charge with zero velocity or at a point of zero total magnetic field. -/
theorem lorentzAccel_perp (magnets : List Magnet) (options : SimOptions) (c : Charge) :
    (lorentzAccel magnets options c).1 * c.vx + (lorentzAccel magnets options c).2 * c.vy = 0
      ∧ (c.vx = 0 ∧ c.vy = 0 → lorentzAccel magnets options c = (0, 0))
      ∧ (totalMagneticFieldAt c.x c.y magnets options = (0, 0) →
          lorentzAccel magnets options c = (0, 0)) := by
  refine ⟨?_, ?_, ?_⟩
  · simp only [lorentzAccel]
    split_ifs with hcond
    · simp only []
      ring
    · simp
  · rintro ⟨h1, h2⟩
    simp [lorentzAccel, h1, h2]
  · intro hB
    simp [lorentzAccel, hB]

theorem lorentzAccel_perp_witness :
    lorentzAccel [] wOptions wPinned = (0, 0) :=
  (lorentzAccel_perp [] wOptions wPinned).2.2 rfl

/- The concrete two-charge scenario of the spec's final testable property. -/

theorem sqrt_hundred : Real.sqrt 100 = 10 := by
  rw [show (100:ℝ) = 10 ^ 2 by norm_num]
  exact Real.sqrt_sq (by norm_num)

/-- The free charge of the scenario: at the origin, q = 1, m = 1, at rest. -/
def c1Free : Charge := ⟨0, 0, 0, 0, 0, 0, 1, 1, false⟩

/-- The held charge of the scenario: at (10, 0), q = 1, m = 1, pinned. -/
def c1Pinned : Charge := ⟨10, 0, 0, 0, 0, 0, 1, 1, true⟩

theorem c1_pairForce : pairForce 1 0 c1Free c1Pinned = (-(1/100), 0) := by
  unfold pairForce c1Free c1Pinned
  norm_num [sqrt_hundred]

theorem c1_inc : preClampIncA 1 0 c1Free c1Pinned = (-(1/100), 0) := by
  simp only [preClampIncA, c1_pairForce]
  norm_num [show c1Free.m = 1 from rfl]

theorem c1_clamp (M : ℝ) (hM : 1/100 ≤ M) :
    clampInc M (preClampIncA 1 0 c1Free c1Pinned) = (-(1/100), 0) := by
  rw [c1_inc]
  refine clampInc_of_le M _ ?_
  rw [show ((-(1/100):ℝ), (0:ℝ)).1 * ((-(1/100):ℝ), (0:ℝ)).1
      + ((-(1/100):ℝ), (0:ℝ)).2 * ((-(1/100):ℝ), (0:ℝ)).2 = ((1:ℝ)/100)^2 by norm_num]
  rw [Real.sqrt_sq (by norm_num)]
  exact hM

/-- Claim C1: for the charge set with a free unit charge at the origin and a
pinned unit charge at (10, 0), no magnets, k = 1, softening = 0, damping = 1,
dt = 1, and any maxAccel at least 1/100 (so that, as with an infinite bound,
the clamp does not fire), one stepPhysics call leaves the free charge with
acceleration exactly (-1/100, 0), velocity exactly (-1/100, 0) and position
exactly (-1/100, 0). -/
theorem euler_two_charge_scenario (M : ℝ) (hM : 1/100 ≤ M) :
    ((stepPhysics [c1Free, c1Pinned] [] 1 ⟨1, 0, 1, M⟩).getD 0 default).ax = -(1/100)
      ∧ ((stepPhysics [c1Free, c1Pinned] [] 1 ⟨1, 0, 1, M⟩).getD 0 default).ay = 0
      ∧ ((stepPhysics [c1Free, c1Pinned] [] 1 ⟨1, 0, 1, M⟩).getD 0 default).vx = -(1/100)
      ∧ ((stepPhysics [c1Free, c1Pinned] [] 1 ⟨1, 0, 1, M⟩).getD 0 default).vy = 0
      ∧ ((stepPhysics [c1Free, c1Pinned] [] 1 ⟨1, 0, 1, M⟩).getD 0 default).x = -(1/100)
      ∧ ((stepPhysics [c1Free, c1Pinned] [] 1 ⟨1, 0, 1, M⟩).getD 0 default).y = 0 := by
  have hCA := computeAccelerations_getD [c1Free, c1Pinned] [] ⟨1, 0, 1, M⟩ 0 (by norm_num)
  have hval : (computeAccelerations [c1Free, c1Pinned] [] (⟨1, 0, 1, M⟩ : SimOptions)).getD
      0 default = { c1Free with ax := -(1/100), ay := 0 } := by
    rw [hCA]
    norm_num [show ([c1Free, c1Pinned] : List Charge).length = 2 from rfl,
      show List.range 2 = [0, 1] from rfl,
      show (([c1Free, c1Pinned] : List Charge).getD 0 default) = c1Free from rfl,
      show (([c1Free, c1Pinned] : List Charge).getD 1 default) = c1Pinned from rfl,
      c1_clamp M hM, lorentzAccel_nil, Charge.mk.injEq]
  have hstep : (stepPhysics [c1Free, c1Pinned] [] 1 (⟨1, 0, 1, M⟩ : SimOptions)).getD 0 default
      = integrateEuler 1 1 { c1Free with ax := -(1/100), ay := 0 } := by
    simp only [stepPhysics]
    rw [getD_map _ _ 0 (by rw [length_computeAccelerations]; norm_num), hval]
  have hfin : integrateEuler 1 1 ({ c1Free with ax := -(1/100), ay := 0 })
      = ⟨-(1/100), 0, -(1/100), 0, -(1/100), 0, 1, 1, false⟩ := by
    simp only [integrateEuler, c1Free]
    rw [if_neg (by decide)]
    refine Charge.ext _ _ ?_ ?_ ?_ ?_ ?_ ?_ ?_ ?_ ?_ <;> norm_num
  rw [hstep, hfin]
  exact ⟨rfl, rfl, rfl, rfl, rfl, rfl⟩

theorem euler_two_charge_scenario_witness :
    (1:ℝ)/100 ≤ 2000
      ∧ (((stepPhysics [c1Free, c1Pinned] [] 1 ⟨1, 0, 1, 2000⟩).getD 0 default).ax = -(1/100)
      ∧ ((stepPhysics [c1Free, c1Pinned] [] 1 ⟨1, 0, 1, 2000⟩).getD 0 default).ay = 0
      ∧ ((stepPhysics [c1Free, c1Pinned] [] 1 ⟨1, 0, 1, 2000⟩).getD 0 default).vx = -(1/100)
      ∧ ((stepPhysics [c1Free, c1Pinned] [] 1 ⟨1, 0, 1, 2000⟩).getD 0 default).vy = 0
      ∧ ((stepPhysics [c1Free, c1Pinned] [] 1 ⟨1, 0, 1, 2000⟩).getD 0 default).x = -(1/100)
      ∧ ((stepPhysics [c1Free, c1Pinned] [] 1 ⟨1, 0, 1, 2000⟩).getD 0 default).y = 0) :=
  ⟨by norm_num, euler_two_charge_scenario 2000 (by norm_num)⟩

/- Newton's third law for the pre-clamp pairwise increments. -/

/-- First counterexample charge: q = 1, m = 1, at the origin. -/
def c5A : Charge := ⟨0, 0, 0, 0, 0, 0, 1, 1, false⟩

/-- Second counterexample charge: q = 1 (same magnitude and sign), but m = 2. -/
def c5B : Charge := ⟨1, 0, 0, 0, 0, 0, 1, 2, false⟩

/-- A partner with the same charge and the same mass as c5A. -/
def c5C : Charge := ⟨1, 0, 0, 0, 0, 0, 1, 1, false⟩

theorem c5_forceAB : pairForce 1 0 c5A c5B = (-1, 0) := by
  unfold pairForce c5A c5B
  norm_num [Real.sqrt_one]

/-- Counterexample to claim C5 as stated: two charges of equal magnitude and
the same sign but unequal masses (1 and 2) give pre-clamp acceleration
increments (-1, 0) and (1/2, 0), which are not equal in magnitude and
opposite in direction. -/
theorem newton_pairs_counterexample :
    ¬ (preClampIncA 1 0 c5A c5B
        = (-(preClampIncB 1 0 c5A c5B).1, -(preClampIncB 1 0 c5A c5B).2)) := by
  have hA : preClampIncA 1 0 c5A c5B = (-1, 0) := by
    simp only [preClampIncA, c5_forceAB]
    norm_num [show c5A.m = 1 from rfl]
  have hB : preClampIncB 1 0 c5A c5B = (1/2, 0) := by
    simp only [preClampIncB, c5_forceAB]
    norm_num [show c5B.m = 2 from rfl]
  rw [hA, hB]
  norm_num [Prod.ext_iff]

/-- Claim C5 amended: for two charges with equal charge values of the same
sign and additionally equal masses, the pre-clamp pairwise acceleration
increments computed by the double loop are exactly equal in magnitude and
opposite in direction. -/
theorem newton_pairs_amended (k soft : ℝ) (a b : Charge)
    (hq : a.q = b.q) (hm : a.m = b.m) :
    preClampIncA k soft a b
      = (-(preClampIncB k soft a b).1, -(preClampIncB k soft a b).2) := by
  simp only [preClampIncA, preClampIncB]
  rw [hm]
  refine Prod.ext ?_ ?_ <;> dsimp only <;> ring

theorem newton_pairs_amended_witness :
    c5A.q = c5C.q ∧ c5A.m = c5C.m
      ∧ preClampIncA 1 0 c5A c5C
        = (-(preClampIncB 1 0 c5A c5C).1, -(preClampIncB 1 0 c5A c5C).2) :=
  ⟨rfl, rfl, newton_pairs_amended 1 0 c5A c5C rfl rfl⟩

/- The symmetry property of the standalone field query. -/

/-- Claim C8: at any point equidistant from two charges of equal magnitude
and opposite sign, the field returned by electricFieldAt is parallel to the
line joining the two charges: its component perpendicular to that line, the
cross product with the joining direction, is zero, for any softening at or
above zero. -/
theorem midline_field_parallel (x y k soft damping maxAccel : ℝ) (c1 c2 : Charge)
    (hsoft : 0 ≤ soft) (hq : c2.q = -c1.q)
    (heq : (x - c1.x)^2 + (y - c1.y)^2 = (x - c2.x)^2 + (y - c2.y)^2) :
    (c2.x - c1.x) * (electricFieldAt x y [c1, c2] ⟨k, soft, damping, maxAccel⟩).2
      - (c2.y - c1.y) * (electricFieldAt x y [c1, c2] ⟨k, soft, damping, maxAccel⟩).1
      = 0 := by
  have hr : (x - c2.x) * (x - c2.x) + (y - c2.y) * (y - c2.y) + soft * soft
      = (x - c1.x) * (x - c1.x) + (y - c1.y) * (y - c1.y) + soft * soft := by
    linear_combination -heq
  simp only [electricFieldAt, fieldContrib, List.foldl_cons, List.foldl_nil]
  rw [hr, hq]
  ring

/-- First witness charge for the symmetry property: q = 1 at the origin. -/
def c8A : Charge := ⟨0, 0, 0, 0, 0, 0, 1, 1, false⟩

/-- Second witness charge for the symmetry property: q = -1 at (2, 0). -/
def c8B : Charge := ⟨2, 0, 0, 0, 0, 0, -1, 1, false⟩

theorem midline_field_parallel_witness :
    (0:ℝ) ≤ 0 ∧ c8B.q = -c8A.q
      ∧ ((1 - c8A.x)^2 + (1 - c8A.y)^2 = (1 - c8B.x)^2 + (1 - c8B.y)^2)
      ∧ (c8B.x - c8A.x) * (electricFieldAt 1 1 [c8A, c8B] ⟨1, 0, 1, 2000⟩).2
          - (c8B.y - c8A.y) * (electricFieldAt 1 1 [c8A, c8B] ⟨1, 0, 1, 2000⟩).1 = 0 :=
  ⟨le_refl 0, by norm_num [c8A, c8B], by norm_num [c8A, c8B],
    midline_field_parallel 1 1 1 0 1 2000 c8A c8B (le_refl 0)
      (by norm_num [c8A, c8B]) (by norm_num [c8A, c8B])⟩

/- Pointwise description of an RK4 step for a non-pinned charge. -/

theorem eq_singleton_of_length_one {α : Type} [Inhabited α] :
    ∀ (l : List α), l.length = 1 → l = [l.getD 0 default]
  | [_], _ => rfl
  | [], h => by simp at h
  | _ :: _ :: _, h => by simp at h

theorem getD_singleton {α : Type} [Inhabited α] (r : α) : ([r] : List α).getD 0 default = r :=
  rfl

theorem map_derivOf_singleton (r : Charge) :
    ((List.map derivOf [r]).getD 0 default) = derivOf r := rfl

theorem derivOf_zeroed (r : Charge) :
    derivOf { r with ax := 0, ay := 0 } = ⟨r.vx, r.vy, 0, 0⟩ := rfl

theorem computeAccelerations_single (c : Charge) (options : SimOptions) :
    computeAccelerations [c] [] options = [{ c with ax := 0, ay := 0 }] := by
  simp only [computeAccelerations]
  rw [show ([c] : List Charge).length = 1 from rfl, show pairIndices 1 = [] from rfl]
  simp only [List.foldl_nil, List.map_cons, List.map_nil]
  rw [show addLorentz [] options (zeroAccel c)
      = { zeroAccel c with ax := (zeroAccel c).ax + 0, ay := (zeroAccel c).ay + 0 } from by
    simp only [addLorentz, lorentzAccel_nil]]
  simp only [zeroAccel]
  norm_num

theorem stageUpdate_pinned_flag (h : ℝ) (s : ChargeState) (kd : ChargeDeriv) (c : Charge) :
    (stageUpdate h s kd c).pinned = c.pinned := by
  by_cases hc : c.pinned = true
  · simp only [stageUpdate]
    rw [if_pos hc]
  · simp only [stageUpdate]
    rw [if_neg hc]

theorem rk4Stage2In_getD (charges : List Charge) (magnets : List Magnet) (dt : ℝ)
    (options : SimOptions) (i : ℕ) (hi : i < charges.length) :
    (rk4Stage2In charges magnets dt options).getD i default
      = stageUpdate (0.5 * dt) ((rk4State0 charges).getD i default)
          ((rk4K1 charges magnets options).getD i default)
          ((rk4Cs1 charges magnets options).getD i default) := by
  rw [rk4Stage2In, stageUpdateAll]
  rw [getD_zipWith _ _ _ i
    (by rw [List.length_zip, length_rk4State0, length_rk4K1]; omega)
    (by rw [length_rk4Cs1]; exact hi)]
  rw [getD_zip _ _ i (by rw [length_rk4State0]; exact hi) (by rw [length_rk4K1]; exact hi)]

theorem rk4Stage3In_getD (charges : List Charge) (magnets : List Magnet) (dt : ℝ)
    (options : SimOptions) (i : ℕ) (hi : i < charges.length) :
    (rk4Stage3In charges magnets dt options).getD i default
      = stageUpdate (0.5 * dt) ((rk4State0 charges).getD i default)
          ((rk4K2 charges magnets dt options).getD i default)
          ((rk4Cs2 charges magnets dt options).getD i default) := by
  rw [rk4Stage3In, stageUpdateAll]
  rw [getD_zipWith _ _ _ i
    (by rw [List.length_zip, length_rk4State0, length_rk4K2]; omega)
    (by rw [length_rk4Cs2]; exact hi)]
  rw [getD_zip _ _ i (by rw [length_rk4State0]; exact hi) (by rw [length_rk4K2]; exact hi)]

theorem rk4Stage4In_getD (charges : List Charge) (magnets : List Magnet) (dt : ℝ)
    (options : SimOptions) (i : ℕ) (hi : i < charges.length) :
    (rk4Stage4In charges magnets dt options).getD i default
      = stageUpdate dt ((rk4State0 charges).getD i default)
          ((rk4K3 charges magnets dt options).getD i default)
          ((rk4Cs3 charges magnets dt options).getD i default) := by
  rw [rk4Stage4In, stageUpdateAll]
  rw [getD_zipWith _ _ _ i
    (by rw [List.length_zip, length_rk4State0, length_rk4K3]; omega)
    (by rw [length_rk4Cs3]; exact hi)]
  rw [getD_zip _ _ i (by rw [length_rk4State0]; exact hi) (by rw [length_rk4K3]; exact hi)]

theorem rk4Cs1_pinned_flag (charges : List Charge) (magnets : List Magnet)
    (options : SimOptions) (i : ℕ) :
    ((rk4Cs1 charges magnets options).getD i default).pinned
      = (charges.getD i default).pinned := by
  rw [rk4Cs1]
  exact pinned_of_static (computeAccelerations_static charges magnets options i)

theorem rk4Cs2_pinned_flag (charges : List Charge) (magnets : List Magnet) (dt : ℝ)
    (options : SimOptions) (i : ℕ) (hi : i < charges.length) :
    ((rk4Cs2 charges magnets dt options).getD i default).pinned
      = (charges.getD i default).pinned := by
  rw [rk4Cs2]
  rw [pinned_of_static (computeAccelerations_static _ magnets options i)]
  rw [rk4Stage2In_getD charges magnets dt options i hi, stageUpdate_pinned_flag]
  exact rk4Cs1_pinned_flag charges magnets options i

theorem rk4Cs3_pinned_flag (charges : List Charge) (magnets : List Magnet) (dt : ℝ)
    (options : SimOptions) (i : ℕ) (hi : i < charges.length) :
    ((rk4Cs3 charges magnets dt options).getD i default).pinned
      = (charges.getD i default).pinned := by
  rw [rk4Cs3]
  rw [pinned_of_static (computeAccelerations_static _ magnets options i)]
  rw [rk4Stage3In_getD charges magnets dt options i hi, stageUpdate_pinned_flag]
  exact rk4Cs2_pinned_flag charges magnets dt options i hi

theorem rk4Cs4_pinned_flag (charges : List Charge) (magnets : List Magnet) (dt : ℝ)
    (options : SimOptions) (i : ℕ) (hi : i < charges.length) :
    ((rk4Cs4 charges magnets dt options).getD i default).pinned
      = (charges.getD i default).pinned := by
  rw [rk4Cs4]
  rw [pinned_of_static (computeAccelerations_static _ magnets options i)]
  rw [rk4Stage4In_getD charges magnets dt options i hi, stageUpdate_pinned_flag]
  exact rk4Cs3_pinned_flag charges magnets dt options i hi

/-- The value of an RK4 step at a non-pinned index: the final state is the
state0 value advanced by the dt-weighted combination of the four staged
derivatives, with damping applied once, after the combination, to the
velocity only. -/
theorem stepPhysicsRK4_getD (charges : List Charge) (magnets : List Magnet) (dt : ℝ)
    (options : SimOptions) (i : ℕ) (hi : i < charges.length)
    (hp : (charges.getD i default).pinned = false) :
    (stepPhysicsRK4 charges magnets dt options).getD i default
      = { (rk4Cs4 charges magnets dt options).getD i default with
          x := ((rk4State0 charges).getD i default).x
            + dt * ((((rk4K1 charges magnets options).getD i default).x
              + 2 * ((rk4K2 charges magnets dt options).getD i default).x
              + 2 * ((rk4K3 charges magnets dt options).getD i default).x
              + ((rk4K4 charges magnets dt options).getD i default).x) / 6),
          y := ((rk4State0 charges).getD i default).y
            + dt * ((((rk4K1 charges magnets options).getD i default).y
              + 2 * ((rk4K2 charges magnets dt options).getD i default).y
              + 2 * ((rk4K3 charges magnets dt options).getD i default).y
              + ((rk4K4 charges magnets dt options).getD i default).y) / 6),
          vx := (((rk4State0 charges).getD i default).vx
            + dt * ((((rk4K1 charges magnets options).getD i default).vx
              + 2 * ((rk4K2 charges magnets dt options).getD i default).vx
              + 2 * ((rk4K3 charges magnets dt options).getD i default).vx
              + ((rk4K4 charges magnets dt options).getD i default).vx) / 6))
            * options.damping,
          vy := (((rk4State0 charges).getD i default).vy
            + dt * ((((rk4K1 charges magnets options).getD i default).vy
              + 2 * ((rk4K2 charges magnets dt options).getD i default).vy
              + 2 * ((rk4K3 charges magnets dt options).getD i default).vy
              + ((rk4K4 charges magnets dt options).getD i default).vy) / 6))
            * options.damping } := by
  have hp4 : ((rk4Cs4 charges magnets dt options).getD i default).pinned = false := by
    rw [rk4Cs4_pinned_flag charges magnets dt options i hi]
    exact hp
  simp only [stepPhysicsRK4]
  rw [getD_zipWith _ _ _ i
    (by
      rw [List.length_zip, List.length_zip, List.length_zip, List.length_zip,
        length_rk4State0, length_rk4K1, length_rk4K2, length_rk4K3, length_rk4K4]
      omega)
    (by rw [length_rk4Cs4]; exact hi)]
  rw [getD_zip _ _ i (by rw [length_rk4State0]; exact hi)
    (by
      rw [List.length_zip, List.length_zip, List.length_zip,
        length_rk4K1, length_rk4K2, length_rk4K3, length_rk4K4]
      omega)]
  rw [getD_zip _ _ i (by rw [length_rk4K1]; exact hi)
    (by
      rw [List.length_zip, List.length_zip, length_rk4K2, length_rk4K3, length_rk4K4]
      omega)]
  rw [getD_zip _ _ i (by rw [length_rk4K2]; exact hi)
    (by rw [List.length_zip, length_rk4K3, length_rk4K4]; omega)]
  rw [getD_zip _ _ i (by rw [length_rk4K3]; exact hi) (by rw [length_rk4K4]; exact hi)]
  simp only [rk4Combine]
  rw [if_neg (by rw [hp4]; exact Bool.noConfusion)]

/-- Claim C4: in stepPhysicsRK4, every non-pinned charge's final position is
state0 + dt times the weighted combination (k1 + 2 k2 + 2 k3 + k4)/6 of the
four staged derivatives, and its final velocity is the same combination
multiplied by damping exactly once, after the combination and on velocity
only; the three speculative stage states are state0 + 0.5 dt k1,
state0 + 0.5 dt k2 and state0 + dt k3 respectively. -/
theorem rk4_combination_formula (charges : List Charge) (magnets : List Magnet)
    (dt : ℝ) (options : SimOptions) (i : ℕ) (hi : i < charges.length)
    (hp : (charges.getD i default).pinned = false) :
    posvel ((stepPhysicsRK4 charges magnets dt options).getD i default)
        = (((rk4State0 charges).getD i default).x
            + dt * ((((rk4K1 charges magnets options).getD i default).x
              + 2 * ((rk4K2 charges magnets dt options).getD i default).x
              + 2 * ((rk4K3 charges magnets dt options).getD i default).x
              + ((rk4K4 charges magnets dt options).getD i default).x) / 6),
           ((rk4State0 charges).getD i default).y
            + dt * ((((rk4K1 charges magnets options).getD i default).y
              + 2 * ((rk4K2 charges magnets dt options).getD i default).y
              + 2 * ((rk4K3 charges magnets dt options).getD i default).y
              + ((rk4K4 charges magnets dt options).getD i default).y) / 6),
           (((rk4State0 charges).getD i default).vx
            + dt * ((((rk4K1 charges magnets options).getD i default).vx
              + 2 * ((rk4K2 charges magnets dt options).getD i default).vx
              + 2 * ((rk4K3 charges magnets dt options).getD i default).vx
              + ((rk4K4 charges magnets dt options).getD i default).vx) / 6))
            * options.damping,
           (((rk4State0 charges).getD i default).vy
            + dt * ((((rk4K1 charges magnets options).getD i default).vy
              + 2 * ((rk4K2 charges magnets dt options).getD i default).vy
              + 2 * ((rk4K3 charges magnets dt options).getD i default).vy
              + ((rk4K4 charges magnets dt options).getD i default).vy) / 6))
            * options.damping)
      ∧ posvel ((rk4Stage2In charges magnets dt options).getD i default)
        = (((rk4State0 charges).getD i default).x
            + 0.5 * dt * ((rk4K1 charges magnets options).getD i default).x,
           ((rk4State0 charges).getD i default).y
            + 0.5 * dt * ((rk4K1 charges magnets options).getD i default).y,
           ((rk4State0 charges).getD i default).vx
            + 0.5 * dt * ((rk4K1 charges magnets options).getD i default).vx,
           ((rk4State0 charges).getD i default).vy
            + 0.5 * dt * ((rk4K1 charges magnets options).getD i default).vy)
      ∧ posvel ((rk4Stage3In charges magnets dt options).getD i default)
        = (((rk4State0 charges).getD i default).x
            + 0.5 * dt * ((rk4K2 charges magnets dt options).getD i default).x,
           ((rk4State0 charges).getD i default).y
            + 0.5 * dt * ((rk4K2 charges magnets dt options).getD i default).y,
           ((rk4State0 charges).getD i default).vx
            + 0.5 * dt * ((rk4K2 charges magnets dt options).getD i default).vx,
           ((rk4State0 charges).getD i default).vy
            + 0.5 * dt * ((rk4K2 charges magnets dt options).getD i default).vy)
      ∧ posvel ((rk4Stage4In charges magnets dt options).getD i default)
        = (((rk4State0 charges).getD i default).x
            + dt * ((rk4K3 charges magnets dt options).getD i default).x,
           ((rk4State0 charges).getD i default).y
            + dt * ((rk4K3 charges magnets dt options).getD i default).y,
           ((rk4State0 charges).getD i default).vx
            + dt * ((rk4K3 charges magnets dt options).getD i default).vx,
           ((rk4State0 charges).getD i default).vy
            + dt * ((rk4K3 charges magnets dt options).getD i default).vy) := by
  have hcs1 : ((rk4Cs1 charges magnets options).getD i default).pinned = false := by
    rw [rk4Cs1_pinned_flag]
    exact hp
  have hcs2 : ((rk4Cs2 charges magnets dt options).getD i default).pinned = false := by
    rw [rk4Cs2_pinned_flag charges magnets dt options i hi]
    exact hp
  have hcs3 : ((rk4Cs3 charges magnets dt options).getD i default).pinned = false := by
    rw [rk4Cs3_pinned_flag charges magnets dt options i hi]
    exact hp
  refine ⟨?_, ?_, ?_, ?_⟩
  · rw [stepPhysicsRK4_getD charges magnets dt options i hi hp]
    rfl
  · rw [rk4Stage2In_getD charges magnets dt options i hi]
    simp only [stageUpdate]
    rw [if_neg (by rw [hcs1]; exact Bool.noConfusion)]
    rfl
  · rw [rk4Stage3In_getD charges magnets dt options i hi]
    simp only [stageUpdate]
    rw [if_neg (by rw [hcs2]; exact Bool.noConfusion)]
    rfl
  · rw [rk4Stage4In_getD charges magnets dt options i hi]
    simp only [stageUpdate]
    rw [if_neg (by rw [hcs3]; exact Bool.noConfusion)]
    rfl

theorem rk4_combination_formula_witness :
    0 < ([c1Free] : List Charge).length
      ∧ (([c1Free] : List Charge).getD 0 default).pinned = false
      ∧ (posvel ((stepPhysicsRK4 [c1Free] [] 1 wOptions).getD 0 default)
          = (((rk4State0 [c1Free]).getD 0 default).x
              + 1 * ((((rk4K1 [c1Free] [] wOptions).getD 0 default).x
                + 2 * ((rk4K2 [c1Free] [] 1 wOptions).getD 0 default).x
                + 2 * ((rk4K3 [c1Free] [] 1 wOptions).getD 0 default).x
                + ((rk4K4 [c1Free] [] 1 wOptions).getD 0 default).x) / 6),
             ((rk4State0 [c1Free]).getD 0 default).y
              + 1 * ((((rk4K1 [c1Free] [] wOptions).getD 0 default).y
                + 2 * ((rk4K2 [c1Free] [] 1 wOptions).getD 0 default).y
                + 2 * ((rk4K3 [c1Free] [] 1 wOptions).getD 0 default).y
                + ((rk4K4 [c1Free] [] 1 wOptions).getD 0 default).y) / 6),
             (((rk4State0 [c1Free]).getD 0 default).vx
              + 1 * ((((rk4K1 [c1Free] [] wOptions).getD 0 default).vx
                + 2 * ((rk4K2 [c1Free] [] 1 wOptions).getD 0 default).vx
                + 2 * ((rk4K3 [c1Free] [] 1 wOptions).getD 0 default).vx
                + ((rk4K4 [c1Free] [] 1 wOptions).getD 0 default).vx) / 6))
              * wOptions.damping,
             (((rk4State0 [c1Free]).getD 0 default).vy
              + 1 * ((((rk4K1 [c1Free] [] wOptions).getD 0 default).vy
                + 2 * ((rk4K2 [c1Free] [] 1 wOptions).getD 0 default).vy
                + 2 * ((rk4K3 [c1Free] [] 1 wOptions).getD 0 default).vy
                + ((rk4K4 [c1Free] [] 1 wOptions).getD 0 default).vy) / 6))
              * wOptions.damping)
        ∧ posvel ((rk4Stage2In [c1Free] [] 1 wOptions).getD 0 default)
          = (((rk4State0 [c1Free]).getD 0 default).x
              + 0.5 * 1 * ((rk4K1 [c1Free] [] wOptions).getD 0 default).x,
             ((rk4State0 [c1Free]).getD 0 default).y
              + 0.5 * 1 * ((rk4K1 [c1Free] [] wOptions).getD 0 default).y,
             ((rk4State0 [c1Free]).getD 0 default).vx
              + 0.5 * 1 * ((rk4K1 [c1Free] [] wOptions).getD 0 default).vx,
             ((rk4State0 [c1Free]).getD 0 default).vy
              + 0.5 * 1 * ((rk4K1 [c1Free] [] wOptions).getD 0 default).vy)
        ∧ posvel ((rk4Stage3In [c1Free] [] 1 wOptions).getD 0 default)
          = (((rk4State0 [c1Free]).getD 0 default).x
              + 0.5 * 1 * ((rk4K2 [c1Free] [] 1 wOptions).getD 0 default).x,
             ((rk4State0 [c1Free]).getD 0 default).y
              + 0.5 * 1 * ((rk4K2 [c1Free] [] 1 wOptions).getD 0 default).y,
             ((rk4State0 [c1Free]).getD 0 default).vx
              + 0.5 * 1 * ((rk4K2 [c1Free] [] 1 wOptions).getD 0 default).vx,
             ((rk4State0 [c1Free]).getD 0 default).vy
              + 0.5 * 1 * ((rk4K2 [c1Free] [] 1 wOptions).getD 0 default).vy)
        ∧ posvel ((rk4Stage4In [c1Free] [] 1 wOptions).getD 0 default)
          = (((rk4State0 [c1Free]).getD 0 default).x
              + 1 * ((rk4K3 [c1Free] [] 1 wOptions).getD 0 default).x,
             ((rk4State0 [c1Free]).getD 0 default).y
              + 1 * ((rk4K3 [c1Free] [] 1 wOptions).getD 0 default).y,
             ((rk4State0 [c1Free]).getD 0 default).vx
              + 1 * ((rk4K3 [c1Free] [] 1 wOptions).getD 0 default).vx,
             ((rk4State0 [c1Free]).getD 0 default).vy
              + 1 * ((rk4K3 [c1Free] [] 1 wOptions).getD 0 default).vy)) :=
  ⟨by norm_num, rfl, rk4_combination_formula [c1Free] [] 1 wOptions 0 (by norm_num) rfl⟩

set_option maxHeartbeats 2000000 in
/-- Claim C7: for a single non-pinned charge, an empty magnet set and
damping 1, both stepPhysics and stepPhysicsRK4 leave the velocity exactly
unchanged and advance the position by exactly (vx dt, vy dt), for every dt,
k, softening and maxAccel. -/
theorem single_free_charge_drift (c : Charge) (dt k soft M : ℝ)
    (hp : c.pinned = false) :
    (stepPhysics [c] [] dt ⟨k, soft, 1, M⟩).map posvel
        = [(c.x + c.vx * dt, c.y + c.vy * dt, c.vx, c.vy)]
      ∧ (stepPhysicsRK4 [c] [] dt ⟨k, soft, 1, M⟩).map posvel
        = [(c.x + c.vx * dt, c.y + c.vy * dt, c.vx, c.vy)] := by
  have hcget : (([c] : List Charge).getD 0 default) = c := rfl
  constructor
  · simp only [stepPhysics]
    rw [computeAccelerations_single c ⟨k, soft, 1, M⟩]
    simp only [List.map_cons, List.map_nil, integrateEuler]
    rw [if_neg (by simp [hp])]
    simp only [posvel]
    norm_num
  · have h1 : rk4Cs1 [c] [] ⟨k, soft, 1, M⟩ = [{ c with ax := 0, ay := 0 }] := by
      rw [rk4Cs1]
      exact computeAccelerations_single c _
    have hcs1get : (rk4Cs1 [c] [] ⟨k, soft, 1, M⟩).getD 0 default
        = { c with ax := 0, ay := 0 } := by
      rw [h1, getD_singleton]
    have hk1 : (rk4K1 [c] [] ⟨k, soft, 1, M⟩).getD 0 default = ⟨c.vx, c.vy, 0, 0⟩ := by
      rw [rk4K1, h1, map_derivOf_singleton]
      rfl
    have hs0 : (rk4State0 [c]).getD 0 default = ⟨c.x, c.y, c.vx, c.vy⟩ := rfl
    have hst2 : (rk4Stage2In [c] [] dt ⟨k, soft, 1, M⟩).getD 0 default
        = { c with x := c.x + 0.5 * dt * c.vx, y := c.y + 0.5 * dt * c.vy,
                   vx := c.vx + 0.5 * dt * 0, vy := c.vy + 0.5 * dt * 0,
                   ax := 0, ay := 0 } := by
      rw [rk4Stage2In_getD _ _ _ _ 0 (by norm_num), hs0, hk1, hcs1get]
      simp only [stageUpdate]
      rw [if_neg (by simp [hp])]
    have hlist2 : rk4Stage2In [c] [] dt ⟨k, soft, 1, M⟩
        = [{ c with
             x := c.x + 0.5 * dt * c.vx, y := c.y + 0.5 * dt * c.vy,
             vx := c.vx + 0.5 * dt * 0, vy := c.vy + 0.5 * dt * 0,
             ax := 0, ay := 0 }] := by
      rw [eq_singleton_of_length_one (rk4Stage2In [c] [] dt ⟨k, soft, 1, M⟩)
        (by rw [length_rk4Stage2In]; rfl), hst2]
    have h2 : rk4Cs2 [c] [] dt ⟨k, soft, 1, M⟩
        = [{ c with
             x := c.x + 0.5 * dt * c.vx, y := c.y + 0.5 * dt * c.vy,
             vx := c.vx + 0.5 * dt * 0, vy := c.vy + 0.5 * dt * 0,
             ax := 0, ay := 0 }] := by
      rw [rk4Cs2, hlist2]
      exact computeAccelerations_single _ _
    have hcs2get : (rk4Cs2 [c] [] dt ⟨k, soft, 1, M⟩).getD 0 default
        = { c with
            x := c.x + 0.5 * dt * c.vx, y := c.y + 0.5 * dt * c.vy,
            vx := c.vx + 0.5 * dt * 0, vy := c.vy + 0.5 * dt * 0,
            ax := 0, ay := 0 } := by
      rw [h2, getD_singleton]
    have hk2 : (rk4K2 [c] [] dt ⟨k, soft, 1, M⟩).getD 0 default
        = ⟨c.vx + 0.5 * dt * 0, c.vy + 0.5 * dt * 0, 0, 0⟩ := by
      rw [rk4K2, h2, map_derivOf_singleton]
      rfl
    have hst3 : (rk4Stage3In [c] [] dt ⟨k, soft, 1, M⟩).getD 0 default
        = { c with
            x := c.x + 0.5 * dt * (c.vx + 0.5 * dt * 0),
            y := c.y + 0.5 * dt * (c.vy + 0.5 * dt * 0),
            vx := c.vx + 0.5 * dt * 0, vy := c.vy + 0.5 * dt * 0,
            ax := 0, ay := 0 } := by
      rw [rk4Stage3In_getD _ _ _ _ 0 (by norm_num), hs0, hk2, hcs2get]
      simp only [stageUpdate]
      rw [if_neg (by simp [hp])]
    have hlist3 : rk4Stage3In [c] [] dt ⟨k, soft, 1, M⟩
        = [{ c with
             x := c.x + 0.5 * dt * (c.vx + 0.5 * dt * 0),
             y := c.y + 0.5 * dt * (c.vy + 0.5 * dt * 0),
             vx := c.vx + 0.5 * dt * 0, vy := c.vy + 0.5 * dt * 0,
             ax := 0, ay := 0 }] := by
      rw [eq_singleton_of_length_one (rk4Stage3In [c] [] dt ⟨k, soft, 1, M⟩)
        (by rw [length_rk4Stage3In]; rfl), hst3]
    have h3 : rk4Cs3 [c] [] dt ⟨k, soft, 1, M⟩
        = [{ c with
             x := c.x + 0.5 * dt * (c.vx + 0.5 * dt * 0),
             y := c.y + 0.5 * dt * (c.vy + 0.5 * dt * 0),
             vx := c.vx + 0.5 * dt * 0, vy := c.vy + 0.5 * dt * 0,
             ax := 0, ay := 0 }] := by
      rw [rk4Cs3, hlist3]
      exact computeAccelerations_single _ _
    have hcs3get : (rk4Cs3 [c] [] dt ⟨k, soft, 1, M⟩).getD 0 default
        = { c with
            x := c.x + 0.5 * dt * (c.vx + 0.5 * dt * 0),
            y := c.y + 0.5 * dt * (c.vy + 0.5 * dt * 0),
            vx := c.vx + 0.5 * dt * 0, vy := c.vy + 0.5 * dt * 0,
            ax := 0, ay := 0 } := by
      rw [h3, getD_singleton]
    have hk3 : (rk4K3 [c] [] dt ⟨k, soft, 1, M⟩).getD 0 default
        = ⟨c.vx + 0.5 * dt * 0, c.vy + 0.5 * dt * 0, 0, 0⟩ := by
      rw [rk4K3, h3, map_derivOf_singleton]
      rfl
    have hst4 : (rk4Stage4In [c] [] dt ⟨k, soft, 1, M⟩).getD 0 default
        = { c with
            x := c.x + dt * (c.vx + 0.5 * dt * 0),
            y := c.y + dt * (c.vy + 0.5 * dt * 0),
            vx := c.vx + dt * 0, vy := c.vy + dt * 0,
            ax := 0, ay := 0 } := by
      rw [rk4Stage4In_getD _ _ _ _ 0 (by norm_num), hs0, hk3, hcs3get]
      simp only [stageUpdate]
      rw [if_neg (by simp [hp])]
    have hlist4 : rk4Stage4In [c] [] dt ⟨k, soft, 1, M⟩
        = [{ c with
             x := c.x + dt * (c.vx + 0.5 * dt * 0),
             y := c.y + dt * (c.vy + 0.5 * dt * 0),
             vx := c.vx + dt * 0, vy := c.vy + dt * 0,
             ax := 0, ay := 0 }] := by
      rw [eq_singleton_of_length_one (rk4Stage4In [c] [] dt ⟨k, soft, 1, M⟩)
        (by rw [length_rk4Stage4In]; rfl), hst4]
    have h4 : rk4Cs4 [c] [] dt ⟨k, soft, 1, M⟩
        = [{ c with
             x := c.x + dt * (c.vx + 0.5 * dt * 0),
             y := c.y + dt * (c.vy + 0.5 * dt * 0),
             vx := c.vx + dt * 0, vy := c.vy + dt * 0,
             ax := 0, ay := 0 }] := by
      rw [rk4Cs4, hlist4]
      exact computeAccelerations_single _ _
    have hk4 : (rk4K4 [c] [] dt ⟨k, soft, 1, M⟩).getD 0 default
        = ⟨c.vx + dt * 0, c.vy + dt * 0, 0, 0⟩ := by
      rw [rk4K4, h4, map_derivOf_singleton]
      rfl
    rw [eq_singleton_of_length_one (stepPhysicsRK4 [c] [] dt ⟨k, soft, 1, M⟩)
      (by rw [length_stepPhysicsRK4]; rfl)]
    simp only [List.map_cons, List.map_nil]
    rw [stepPhysicsRK4_getD [c] [] dt ⟨k, soft, 1, M⟩ 0 (by norm_num)
      (by rw [hcget]; exact hp)]
    simp only [posvel]
    rw [hs0, hk1, hk2, hk3, hk4]
    dsimp only
    simp only [List.cons.injEq, Prod.mk.injEq, and_true]
    exact ⟨by ring, by ring, by ring, by ring⟩

theorem single_free_charge_drift_witness :
    c1Free.pinned = false
      ∧ ((stepPhysics [c1Free] [] 1 ⟨1, 0, 1, 2000⟩).map posvel
          = [(c1Free.x + c1Free.vx * 1, c1Free.y + c1Free.vy * 1, c1Free.vx, c1Free.vy)]
        ∧ (stepPhysicsRK4 [c1Free] [] 1 ⟨1, 0, 1, 2000⟩).map posvel
          = [(c1Free.x + c1Free.vx * 1, c1Free.y + c1Free.vy * 1, c1Free.vx, c1Free.vy)]) :=
  ⟨rfl, single_free_charge_drift c1Free 1 1 0 2000 rfl⟩

/- The field-based Euler step, pointwise. -/

theorem getD_range (n t : ℕ) (h : t < n) : (List.range n).getD t default = t := by
  rw [List.getD_eq_getElem _ _ (by simpa using h)]
  simp

theorem length_stepPhysicsUsingFields (charges : List Charge) (dt : ℝ)
    (options : SimOptions) :
    (stepPhysicsUsingFields charges dt options).length = charges.length := by
  simp [stepPhysicsUsingFields]

theorem stepPhysicsUsingFields_getD (charges : List Charge) (dt : ℝ)
    (options : SimOptions) (t : ℕ) (ht : t < charges.length) :
    (stepPhysicsUsingFields charges dt options).getD t default
      = integrateEuler dt options.damping
          { charges.getD t default with
            ax := (charges.getD t default).q
              * (0 + ((List.range charges.length).map fun j =>
                  if t = j then 0
                  else (fieldContrib options.k options.softening
                    (charges.getD t default).x (charges.getD t default).y
                    (charges.getD j default)).1).sum)
              / (charges.getD t default).m,
            ay := (charges.getD t default).q
              * (0 + ((List.range charges.length).map fun j =>
                  if t = j then 0
                  else (fieldContrib options.k options.softening
                    (charges.getD t default).x (charges.getD t default).y
                    (charges.getD j default)).2).sum)
              / (charges.getD t default).m } := by
  simp only [stepPhysicsUsingFields]
  rw [getD_map _ _ t (by simp only [List.length_map, List.length_range]; exact ht)]
  refine congrArg (integrateEuler dt options.damping) ?_
  rw [getD_map _ _ t (by simp only [List.length_range]; exact ht)]
  rw [getD_range charges.length t ht]
  rw [foldl_addPair_skip (fun j => fieldContrib options.k options.softening
    (charges.getD t default).x (charges.getD t default).y (charges.getD j default)) t
    (List.range charges.length) (0, 0)]

/-- Claim C6: with an empty magnet set and a maxAccel bound large enough that
no pairwise clamp fires, a stepPhysics call produces, for every charge,
exactly the same final acceleration, velocity and position as the
field-based step stepPhysicsUsingFields, which gives each charge the
acceleration q E / m with E the electricFieldAt sum over all other charges
at the same k and softening: the two lists are equal. -/
theorem euler_step_agrees_with_field_step (charges : List Charge) (dt : ℝ)
    (options : SimOptions)
    (hnc : ∀ i j, i < charges.length → j < charges.length → i ≠ j →
      Real.sqrt ((preClampIncA options.k options.softening (charges.getD i default)
            (charges.getD j default)).1
          * (preClampIncA options.k options.softening (charges.getD i default)
            (charges.getD j default)).1
        + (preClampIncA options.k options.softening (charges.getD i default)
            (charges.getD j default)).2
          * (preClampIncA options.k options.softening (charges.getD i default)
            (charges.getD j default)).2) ≤ options.maxAccel) :
    stepPhysics charges [] dt options = stepPhysicsUsingFields charges dt options := by
  refine List.ext_getElem ?_ ?_
  · rw [length_stepPhysics, length_stepPhysicsUsingFields]
  · intro i h1 h2
    have hi : i < charges.length := by
      rw [length_stepPhysics] at h1
      exact h1
    rw [← List.getD_eq_getElem _ default h1, ← List.getD_eq_getElem _ default h2]
    rw [show (stepPhysics charges [] dt options).getD i default
        = integrateEuler dt options.damping
            ((computeAccelerations charges [] options).getD i default) from by
      simp only [stepPhysics]
      rw [getD_map _ _ i (by rw [length_computeAccelerations]; exact hi)]]
    rw [stepPhysicsUsingFields_getD charges dt options i hi]
    refine congrArg (integrateEuler dt options.damping) ?_
    rw [computeAccelerations_getD charges [] options i hi, lorentzAccel_nil]
    have hclamp1 : ((List.range charges.length).map fun j =>
        if i = j then 0
        else (clampInc options.maxAccel (preClampIncA options.k options.softening
          (charges.getD i default) (charges.getD j default))).1)
        = (List.range charges.length).map fun j =>
          if i = j then 0
          else (preClampIncA options.k options.softening
            (charges.getD i default) (charges.getD j default)).1 := by
      refine List.map_congr_left fun j hj => ?_
      by_cases hij : i = j
      · rw [if_pos hij, if_pos hij]
      · rw [if_neg hij, if_neg hij,
          clampInc_of_le _ _ (hnc i j hi (List.mem_range.mp hj) hij)]
    have hclamp2 : ((List.range charges.length).map fun j =>
        if i = j then 0
        else (clampInc options.maxAccel (preClampIncA options.k options.softening
          (charges.getD i default) (charges.getD j default))).2)
        = (List.range charges.length).map fun j =>
          if i = j then 0
          else (preClampIncA options.k options.softening
            (charges.getD i default) (charges.getD j default)).2 := by
      refine List.map_congr_left fun j hj => ?_
      by_cases hij : i = j
      · rw [if_pos hij, if_pos hij]
      · rw [if_neg hij, if_neg hij,
          clampInc_of_le _ _ (hnc i j hi (List.mem_range.mp hj) hij)]
    have hdivpull : ∀ S : ℝ, (charges.getD i default).q * S / (charges.getD i default).m
        = ((charges.getD i default).q / (charges.getD i default).m) * S :=
      fun S => by ring
    refine Charge.ext _ _ rfl rfl rfl rfl ?_ ?_ rfl rfl rfl
    · dsimp only
      rw [hclamp1, zero_add, add_zero, hdivpull, ← List.sum_map_mul_left]
      congr 1
      refine List.map_congr_left fun j hj => ?_
      by_cases hij : i = j
      · rw [if_pos hij, if_pos hij, mul_zero]
      · rw [if_neg hij, if_neg hij]
        simp only [preClampIncA, pairForce, fieldContrib]
        ring
    · dsimp only
      rw [hclamp2, zero_add, add_zero, hdivpull, ← List.sum_map_mul_left]
      congr 1
      refine List.map_congr_left fun j hj => ?_
      by_cases hij : i = j
      · rw [if_pos hij, if_pos hij, mul_zero]
      · rw [if_neg hij, if_neg hij]
        simp only [preClampIncA, pairForce, fieldContrib]
        ring

theorem c1_inc_swap : preClampIncA 1 0 c1Pinned c1Free = (1/100, 0) := by
  unfold preClampIncA
  rw [show pairForce 1 0 c1Pinned c1Free = (1/100, 0) from by
    unfold pairForce c1Pinned c1Free
    norm_num [sqrt_hundred]]
  norm_num [show c1Pinned.m = 1 from rfl]

theorem euler_step_agrees_with_field_step_witness :
    (∀ i j, i < ([c1Free, c1Pinned] : List Charge).length →
        j < ([c1Free, c1Pinned] : List Charge).length → i ≠ j →
      Real.sqrt ((preClampIncA (⟨1, 0, 1, 2000⟩ : SimOptions).k
            (⟨1, 0, 1, 2000⟩ : SimOptions).softening
            (([c1Free, c1Pinned] : List Charge).getD i default)
            (([c1Free, c1Pinned] : List Charge).getD j default)).1
          * (preClampIncA (⟨1, 0, 1, 2000⟩ : SimOptions).k
            (⟨1, 0, 1, 2000⟩ : SimOptions).softening
            (([c1Free, c1Pinned] : List Charge).getD i default)
            (([c1Free, c1Pinned] : List Charge).getD j default)).1
        + (preClampIncA (⟨1, 0, 1, 2000⟩ : SimOptions).k
            (⟨1, 0, 1, 2000⟩ : SimOptions).softening
            (([c1Free, c1Pinned] : List Charge).getD i default)
            (([c1Free, c1Pinned] : List Charge).getD j default)).2
          * (preClampIncA (⟨1, 0, 1, 2000⟩ : SimOptions).k
            (⟨1, 0, 1, 2000⟩ : SimOptions).softening
            (([c1Free, c1Pinned] : List Charge).getD i default)
            (([c1Free, c1Pinned] : List Charge).getD j default)).2)
        ≤ (⟨1, 0, 1, 2000⟩ : SimOptions).maxAccel)
      ∧ stepPhysics [c1Free, c1Pinned] [] 1 ⟨1, 0, 1, 2000⟩
        = stepPhysicsUsingFields [c1Free, c1Pinned] 1 ⟨1, 0, 1, 2000⟩ := by
  have hs : Real.sqrt ((1:ℝ)/10000) = 1/100 := by
    rw [show ((1:ℝ)/10000) = ((1:ℝ)/100)^2 by norm_num]
    exact Real.sqrt_sq (by norm_num)
  have hb : ∀ i j, i < ([c1Free, c1Pinned] : List Charge).length →
      j < ([c1Free, c1Pinned] : List Charge).length → i ≠ j →
      Real.sqrt ((preClampIncA (⟨1, 0, 1, 2000⟩ : SimOptions).k
            (⟨1, 0, 1, 2000⟩ : SimOptions).softening
            (([c1Free, c1Pinned] : List Charge).getD i default)
            (([c1Free, c1Pinned] : List Charge).getD j default)).1
          * (preClampIncA (⟨1, 0, 1, 2000⟩ : SimOptions).k
            (⟨1, 0, 1, 2000⟩ : SimOptions).softening
            (([c1Free, c1Pinned] : List Charge).getD i default)
            (([c1Free, c1Pinned] : List Charge).getD j default)).1
        + (preClampIncA (⟨1, 0, 1, 2000⟩ : SimOptions).k
            (⟨1, 0, 1, 2000⟩ : SimOptions).softening
            (([c1Free, c1Pinned] : List Charge).getD i default)
            (([c1Free, c1Pinned] : List Charge).getD j default)).2
          * (preClampIncA (⟨1, 0, 1, 2000⟩ : SimOptions).k
            (⟨1, 0, 1, 2000⟩ : SimOptions).softening
            (([c1Free, c1Pinned] : List Charge).getD i default)
            (([c1Free, c1Pinned] : List Charge).getD j default)).2)
        ≤ (⟨1, 0, 1, 2000⟩ : SimOptions).maxAccel := by
    intro i j hi hj hij
    simp only [List.length_cons, List.length_nil] at hi hj
    interval_cases i <;> interval_cases j
    · omega
    · norm_num [show (([c1Free, c1Pinned] : List Charge).getD 0 default) = c1Free from rfl,
        show (([c1Free, c1Pinned] : List Charge).getD 1 default) = c1Pinned from rfl,
        c1_inc, c1_inc_swap, hs]
    · norm_num [show (([c1Free, c1Pinned] : List Charge).getD 0 default) = c1Free from rfl,
        show (([c1Free, c1Pinned] : List Charge).getD 1 default) = c1Pinned from rfl,
        c1_inc, c1_inc_swap, hs]
    · omega
  exact ⟨hb, euler_step_agrees_with_field_step [c1Free, c1Pinned] 1 ⟨1, 0, 1, 2000⟩ hb⟩

end Electro

end
